import Mathlib

set_option autoImplicit false

/-!
Verification model of the BLE Mesh provisioner core behind
src/components/bt/esp_ble_mesh/api/core/include/esp_ble_mesh_networking_api.h.
The repository excerpt contains only the public API header (prototypes and
doc comments); the four engines behind it (Key Store, Node Registry,
Heartbeat Filter Engine, Settings Session Manager) are modelled here from
the specification, faithful to the documented operation semantics.
-/

/-- Modelled from the spec: result-code taxonomy of section 7; the header
only declares esp_err_t return values. -/
inductive MeshErr where
  | NOT_FOUND
  | DUPLICATE_INDEX
  | INVALID_REFERENCE
  | INVALID_STATE
  | CONFLICT
  | RESOURCE_EXHAUSTED
  | INVALID_ARGUMENT
deriving DecidableEq, Repr

/-! ## Heartbeat Filter Engine -/

/-- Modelled from the spec: the global heartbeat filter type (blacklist or
whitelist); the header passes it as a uint8_t to
esp_ble_mesh_provisioner_set_heartbeat_filter_type. -/
inductive HbFilterType where
  | blacklist
  | whitelist
deriving DecidableEq, Repr

/-- Modelled from the spec: a HeartbeatFilterEntry with optional source
address, optional destination address, expiry in seconds (0 = never
expires) and the engine-clock stamp of its creation or last update. -/
structure HbFilterEntry where
  src : Option Nat
  dst : Option Nat
  expiry : Nat
  stamp : Nat
deriving DecidableEq, Repr

/-- Modelled from the spec: the info argument of
esp_ble_mesh_provisioner_set_heartbeat_filter_info (hb_src, hb_dst,
expiry); unset addresses are modelled as none. -/
structure HbFilterInfo where
  hb_src : Option Nat
  hb_dst : Option Nat
  expiry : Nat
deriving DecidableEq, Repr

/-- Modelled from the spec: state of the Heartbeat Filter Engine, a filter
type and a bounded ordered collection of entries. -/
structure HbFilter where
  ftype : HbFilterType
  entries : List HbFilterEntry
deriving DecidableEq, Repr

/-- Deployment-time capacity constant bounding the filter entry table. -/
def MAX_FILTER_ENTRIES : Nat := 10

/-- Modelled from the spec: esp_ble_mesh_provisioner_start_recv_heartbeat;
on success the filter is an empty blacklist (process and report
everything). -/
def startRecvHeartbeat : HbFilter :=
  { ftype := .blacklist, entries := [] }

/-- Modelled from the spec:
esp_ble_mesh_provisioner_set_heartbeat_filter_type; if the type differs
from the current value all entries are cleared, otherwise the state is
kept. -/
def setHeartbeatFilterType (t : HbFilterType) (f : HbFilter) : HbFilter :=
  if t = f.ftype then f else { ftype := t, entries := [] }

/-- The new entry shares its source address with an existing entry (the
given source is set and equals the entry source). -/
def sharesSrc (info : HbFilterInfo) (e : HbFilterEntry) : Bool :=
  info.hb_src.isSome && e.src == info.hb_src

/-- The new entry shares its destination address with an existing entry. -/
def sharesDst (info : HbFilterInfo) (e : HbFilterEntry) : Bool :=
  info.hb_dst.isSome && e.dst == info.hb_dst

/-- Modelled from the spec: the Add branch of
esp_ble_mesh_provisioner_set_heartbeat_filter_info. At least one of
source/destination must be set; every existing entry sharing the given
source or the given destination is removed, then a single entry with the
union of the provided fields is inserted, stamped with the current
engine-clock time. -/
def addFilterEntry (now : Nat) (info : HbFilterInfo) (f : HbFilter) :
    Except MeshErr Unit × HbFilter :=
  if info.hb_src.isNone && info.hb_dst.isNone then
    (.error .INVALID_ARGUMENT, f)
  else
    let kept := f.entries.filter (fun e => !(sharesSrc info e || sharesDst info e))
    if MAX_FILTER_ENTRIES ≤ kept.length then
      (.error .RESOURCE_EXHAUSTED, f)
    else
      (.ok (), { f with entries := kept ++ [⟨info.hb_src, info.hb_dst, info.expiry, now⟩] })

/-- Modelled from the spec: which entries a Remove operation deletes. With
both addresses set, only an entry matching both exactly; with one set, any
entry whose corresponding field matches. -/
def remMatches (info : HbFilterInfo) (e : HbFilterEntry) : Bool :=
  match info.hb_src, info.hb_dst with
  | some a, some b => e.src == some a && e.dst == some b
  | some a, none => e.src == some a
  | none, some b => e.dst == some b
  | none, none => false

/-- Modelled from the spec: the Remove branch of
esp_ble_mesh_provisioner_set_heartbeat_filter_info. At least one of
source/destination must be set; matching entries are deleted and a miss is
an idempotent no-op. -/
def removeFilterEntry (info : HbFilterInfo) (f : HbFilter) :
    Except MeshErr Unit × HbFilter :=
  match info.hb_src, info.hb_dst with
  | none, none => (.error .INVALID_ARGUMENT, f)
  | _, _ => (.ok (), { f with entries := f.entries.filter (fun e => !(remMatches info e)) })

/-- Modelled from the spec: the Clean branch of
esp_ble_mesh_provisioner_set_heartbeat_filter_info removes all entries,
preserving the filter type. -/
def cleanFilterEntries (f : HbFilter) : Except MeshErr Unit × HbFilter :=
  (.ok (), { f with entries := [] })

/-- Modelled from the spec: op_flag argument (add, remove or clean). -/
inductive HbFilterOp where
  | add
  | remove
  | clean
deriving DecidableEq, Repr

/-- Modelled from the spec:
esp_ble_mesh_provisioner_set_heartbeat_filter_info dispatching on the
op_flag. -/
def setHeartbeatFilterInfo (op : HbFilterOp) (now : Nat) (info : HbFilterInfo)
    (f : HbFilter) : Except MeshErr Unit × HbFilter :=
  match op with
  | .add => addFilterEntry now info f
  | .remove => removeFilterEntry info f
  | .clean => cleanFilterEntries f

/-- An entry is expired at engine-clock time now: its expiry is non-zero
and the elapsed time since its creation or last update has reached the
expiry. Entries with expiry 0 never expire. -/
def expiredAt (now : Nat) (e : HbFilterEntry) : Bool :=
  e.expiry != 0 && decide (e.stamp + e.expiry ≤ now)

/-- An entry matches a received (source, destination) pair: each field
that is set in the entry must equal the received address; an unset field
matches anything. -/
def entryMatches (src dst : Nat) (e : HbFilterEntry) : Bool :=
  (e.src == none || e.src == some src) && (e.dst == none || e.dst == some dst)

/-- Modelled from the spec: the internal evaluate decision of the filter
engine. Under blacklist the beacon is reported unless an entry matches
(expiry is ignored); under whitelist it is reported only if a matching
non-expired entry exists, and expired entries are lazily purged as part of
the evaluation. -/
def evalHeartbeat (src dst now : Nat) (f : HbFilter) : Bool × HbFilter :=
  match f.ftype with
  | .blacklist => (!(f.entries.any (entryMatches src dst)), f)
  | .whitelist =>
    let alive := f.entries.filter (fun e => !(expiredAt now e))
    (alive.any (entryMatches src dst), { f with entries := alive })

/-- Modelled from the spec: enumeration of the filter entries, which also
lazily purges expired entries under whitelist. -/
def enumFilterEntries (now : Nat) (f : HbFilter) : List HbFilterEntry × HbFilter :=
  match f.ftype with
  | .blacklist => (f.entries, f)
  | .whitelist =>
    let alive := f.entries.filter (fun e => !(expiredAt now e))
    (alive, { f with entries := alive })

/-- Number of entries whose source field is the address a. -/
def countSrc (es : List HbFilterEntry) (a : Nat) : Nat :=
  (es.filter (fun e => e.src == some a)).length

/-- Number of entries whose destination field is the address b. -/
def countDst (es : List HbFilterEntry) (b : Nat) : Nat :=
  (es.filter (fun e => e.dst == some b)).length

/-! ## Key Store -/

/-- Key values are opaque 16-byte secrets; modelled as byte lists. -/
abbrev KeyVal := List Nat

/-- Modelled from the spec: a network key record (16-bit index, value). -/
structure NetKeyRec where
  idx : Nat
  key : KeyVal
deriving DecidableEq, Repr

/-- Modelled from the spec: an application key record (16-bit index,
associated network key index, value). -/
structure AppKeyRec where
  app_idx : Nat
  net_idx : Nat
  key : KeyVal
deriving DecidableEq, Repr

/-- Modelled from the spec: out-of-band events reporting a generated key
index to the application layer. -/
inductive MeshEvent where
  | netIdxGenerated (idx : Nat)
  | appIdxGenerated (idx : Nat)
deriving DecidableEq, Repr

/-- Modelled from the spec: the Key Store, owning NetKey and AppKey
records, with the outbound event channel for generated indices. -/
structure KeyStore where
  netKeys : List NetKeyRec
  appKeys : List AppKeyRec
  events : List MeshEvent
deriving DecidableEq, Repr

/-- The generate sentinel index 0xFFFF. -/
def GEN_IDX : Nat := 0xFFFF

/-- The store holds a NetKey with index i. -/
def hasNetIdx (s : KeyStore) (i : Nat) : Bool :=
  s.netKeys.any (fun r => r.idx == i)

/-- The store holds an AppKey with index i. -/
def hasAppIdx (s : KeyStore) (i : Nat) : Bool :=
  s.appKeys.any (fun r => r.app_idx == i)

/-- The least natural number not occurring in the list; searching up to
the list length is enough by pigeonhole. -/
def leastFree (used : List Nat) : Nat :=
  ((List.range (used.length + 1)).find? (fun n => !(used.contains n))).getD 0

/-- Next free NetKey index allocated by a generate-sentinel add. -/
def freeNetIdx (s : KeyStore) : Nat :=
  leastFree (s.netKeys.map NetKeyRec.idx)

/-- Next free AppKey index allocated by a generate-sentinel add. -/
def freeAppIdx (s : KeyStore) : Nat :=
  leastFree (s.appKeys.map AppKeyRec.app_idx)

/-- Modelled from the spec: esp_ble_mesh_provisioner_add_local_net_key.
With the sentinel index 0xFFFF the store allocates the next free index and
reports it via an event; a caller-supplied index already in use fails
DUPLICATE_INDEX. The result carries the assigned index. (Internal
generation of the key value itself is delegated to a random-source
collaborator and not modelled; the value is taken as given.) -/
def addNetKey (key : KeyVal) (net_idx : Nat) (s : KeyStore) :
    Except MeshErr Nat × KeyStore :=
  if net_idx == GEN_IDX then
    let j := freeNetIdx s
    (.ok j, { s with netKeys := s.netKeys ++ [⟨j, key⟩],
                     events := s.events ++ [.netIdxGenerated j] })
  else if GEN_IDX < net_idx then (.error .INVALID_ARGUMENT, s)
  else if hasNetIdx s net_idx then (.error .DUPLICATE_INDEX, s)
  else (.ok net_idx, { s with netKeys := s.netKeys ++ [⟨net_idx, key⟩] })

/-- Modelled from the spec: esp_ble_mesh_provisioner_update_local_net_key
replaces the key value in place (the index is immutable); fails NOT_FOUND
if the index is absent. -/
def updateNetKey (key : KeyVal) (net_idx : Nat) (s : KeyStore) :
    Except MeshErr Unit × KeyStore :=
  if hasNetIdx s net_idx then
    let nk := s.netKeys.map (fun r => if r.idx == net_idx then ⟨net_idx, key⟩ else r)
    (.ok (), { s with netKeys := nk })
  else (.error .NOT_FOUND, s)

/-- Modelled from the spec: esp_ble_mesh_provisioner_get_local_net_key
returns the key value, or none on a miss. -/
def getNetKey (net_idx : Nat) (s : KeyStore) : Option KeyVal :=
  (s.netKeys.find? (fun r => r.idx == net_idx)).map (fun r => r.key)

/-- Modelled from the spec: esp_ble_mesh_provisioner_add_local_app_key.
The referenced NetKey index must exist (INVALID_REFERENCE otherwise, with
the store unchanged); the sentinel index 0xFFFF allocates the next free
AppKey index and reports it via an event. -/
def addAppKey (key : KeyVal) (net_idx app_idx : Nat) (s : KeyStore) :
    Except MeshErr Nat × KeyStore :=
  if !(hasNetIdx s net_idx) then (.error .INVALID_REFERENCE, s)
  else if app_idx == GEN_IDX then
    let j := freeAppIdx s
    (.ok j, { s with appKeys := s.appKeys ++ [⟨j, net_idx, key⟩],
                     events := s.events ++ [.appIdxGenerated j] })
  else if GEN_IDX < app_idx then (.error .INVALID_ARGUMENT, s)
  else if hasAppIdx s app_idx then (.error .DUPLICATE_INDEX, s)
  else (.ok app_idx, { s with appKeys := s.appKeys ++ [⟨app_idx, net_idx, key⟩] })

/-- Modelled from the spec: esp_ble_mesh_provisioner_update_local_app_key
replaces the key value of the record with the given AppKey index and
associated NetKey index; fails NOT_FOUND if absent. -/
def updateAppKey (key : KeyVal) (net_idx app_idx : Nat) (s : KeyStore) :
    Except MeshErr Unit × KeyStore :=
  if s.appKeys.any (fun r => r.app_idx == app_idx && r.net_idx == net_idx) then
    let ak := s.appKeys.map (fun r =>
      if r.app_idx == app_idx && r.net_idx == net_idx then ⟨app_idx, net_idx, key⟩ else r)
    (.ok (), { s with appKeys := ak })
  else (.error .NOT_FOUND, s)

/-- Modelled from the spec: esp_ble_mesh_provisioner_get_local_app_key
returns the key value of the record with the given indices, or none. -/
def getAppKey (net_idx app_idx : Nat) (s : KeyStore) : Option KeyVal :=
  (s.appKeys.find? (fun r => r.app_idx == app_idx && r.net_idx == net_idx)).map
    (fun r => r.key)

/-- Key Store operations (the store offers no deletion: key records are
never deleted except via session erase). -/
inductive KSOp where
  | addNet (key : KeyVal) (net_idx : Nat)
  | updateNet (key : KeyVal) (net_idx : Nat)
  | addApp (key : KeyVal) (net_idx app_idx : Nat)
  | updateApp (key : KeyVal) (net_idx app_idx : Nat)
deriving DecidableEq, Repr

/-- State transition of a Key Store operation (result code dropped). -/
def applyKSOp (s : KeyStore) (op : KSOp) : KeyStore :=
  match op with
  | .addNet k i => (addNetKey k i s).2
  | .updateNet k i => (updateNetKey k i s).2
  | .addApp k n a => (addAppKey k n a s).2
  | .updateApp k n a => (updateAppKey k n a s).2

/-! ## Node Registry -/

/-- Modelled from the spec: a NodeRecord (device UUID, unicast address,
mutable name, composition data blob). -/
structure MeshNode where
  uuid : List Nat
  unicast_addr : Nat
  name : String
  comp_data : List Nat
deriving DecidableEq, Repr

/-- Deployment-time capacity constant of the node table
(CONFIG_BLE_MESH_MAX_PROV_NODES). -/
def MAX_PROV_NODES : Nat := 8

/-- Modelled from the spec: the fixed-capacity ordered node table with
empty slots as tombstones. -/
abbrev NodeTable := List (Option MeshNode)

/-- Modelled from the spec: esp_ble_mesh_provisioner_get_node_name returns
the name of the node stored at the given table index, or none when the
slot is empty or the index is out of range. -/
def getNodeName (t : NodeTable) (idx : Nat) : Option String :=
  match t[idx]? with
  | some (some n) => some n.name
  | _ => none

/-- Modelled from the spec: esp_ble_mesh_provisioner_set_node_name sets
the name of the node at the given index; fails NOT_FOUND when the slot is
empty or out of range. -/
def setNodeName (t : NodeTable) (idx : Nat) (name : String) :
    Except MeshErr Unit × NodeTable :=
  match t[idx]? with
  | some (some n) => (.ok (), t.set idx (some { n with name := name }))
  | _ => (.error .NOT_FOUND, t)

/-- Modelled from the spec: get-node-count counts non-empty slots. -/
def nodeCount (t : NodeTable) : Nat :=
  (t.filter (fun sl => sl.isSome)).length

/-! ## Settings Session Manager -/

/-- Modelled from the spec: the snapshot a session persists — the three
owned stores as one atomic unit. -/
structure Snapshot where
  keys : KeyStore
  nodes : NodeTable
  filter : HbFilter
deriving DecidableEq, Repr

/-- The empty snapshot: empty key store, all node slots empty, empty
blacklist filter. -/
def emptySnapshot : Snapshot :=
  { keys := ⟨[], [], []⟩,
    nodes := List.replicate MAX_PROV_NODES none,
    filter := startRecvHeartbeat }

/-- Modelled from the spec: per-identity session states
CLOSED, OPEN, RESTORED (OPEN after release differs from OPEN only in the
snapshot content, which is carried separately). -/
inductive SessState where
  | CLOSED
  | OPEN
  | RESTORED
deriving DecidableEq, Repr

/-- One settings slot: its session state, the optional user_id bound to
it, and the backing storage region content. -/
structure Slot where
  st : SessState
  uid : Option String
  store : Snapshot
deriving DecidableEq, Repr

/-- A fresh slot: closed, no user_id, erased region. -/
def initSlot : Slot :=
  { st := .CLOSED, uid := none, store := emptySnapshot }

/-- Modelled from the spec: process-wide state of the Settings Session
Manager — the slot table, the single-owner marker of the identity holding
RESTORED, the global provisioner-enabled flag and the live in-memory
snapshot. -/
structure SMgr where
  slots : List Slot
  owner : Option Nat
  provEnabled : Bool
  live : Snapshot
deriving DecidableEq, Repr

/-- Initial manager with n configured slots, nothing open or restored. -/
def initMgr (n : Nat) : SMgr :=
  { slots := List.replicate n initSlot, owner := none,
    provEnabled := false, live := emptySnapshot }

/-- Index of the slot bound to the given user_id, if any. -/
def findUidIdx (s : SMgr) (uid : String) : Option Nat :=
  s.slots.findIdx? (fun sl => sl.uid == some uid)

/-- First closed slot with no user_id bound, used by open-by-user_id to
assign a free index. -/
def findFreeSlot (s : SMgr) : Option Nat :=
  s.slots.findIdx? (fun sl => sl.uid == none && sl.st == SessState.CLOSED)

/-- Modelled from the spec:
esp_ble_mesh_provisioner_open_settings_with_index opens the backing region
for the given index; only valid from CLOSED. -/
def openIdx (i : Nat) (s : SMgr) : Except MeshErr Unit × SMgr :=
  match s.slots[i]? with
  | none => (.error .NOT_FOUND, s)
  | some sl =>
    if sl.st = .CLOSED then
      (.ok (), { s with slots := s.slots.set i { sl with st := .OPEN } })
    else (.error .INVALID_STATE, s)

/-- Modelled from the spec:
esp_ble_mesh_provisioner_open_settings_with_user_id locates the slot bound
to the user_id or assigns a free index to it, failing RESOURCE_EXHAUSTED
when no slot remains. -/
def openUid (uid : String) (s : SMgr) : Except MeshErr Unit × SMgr :=
  match findUidIdx s uid with
  | some i => openIdx i s
  | none =>
    match findFreeSlot s with
    | none => (.error .RESOURCE_EXHAUSTED, s)
    | some i =>
      match s.slots[i]? with
      | none => (.error .NOT_FOUND, s)
      | some sl =>
        if sl.st = .CLOSED then
          (.ok (), { s with slots := s.slots.set i { sl with st := .OPEN, uid := some uid } })
        else (.error .INVALID_STATE, s)

/-- Modelled from the spec:
esp_ble_mesh_provisioner_restore_settings_with_index. The process-wide
RESTORED-exclusivity guard is checked first: while some identity holds
RESTORED, restoring it again is an invalid transition and restoring any
other identity fails CONFLICT. Otherwise the session must be OPEN; the
backing region is loaded into the live snapshot, the slot becomes RESTORED
and the provisioner-enabled flag is set. -/
def restoreIdx (i : Nat) (s : SMgr) : Except MeshErr Unit × SMgr :=
  match s.owner with
  | some k => if k = i then (.error .INVALID_STATE, s) else (.error .CONFLICT, s)
  | none =>
    match s.slots[i]? with
    | none => (.error .NOT_FOUND, s)
    | some sl =>
      if sl.st = .OPEN then
        (.ok (), { s with slots := s.slots.set i { sl with st := .RESTORED },
                          owner := some i, provEnabled := true, live := sl.store })
      else (.error .INVALID_STATE, s)

/-- Modelled from the spec:
esp_ble_mesh_provisioner_restore_settings_with_user_id; the exclusivity
guard applies identically to the user_id identity space. -/
def restoreUid (uid : String) (s : SMgr) : Except MeshErr Unit × SMgr :=
  match findUidIdx s uid with
  | some i => restoreIdx i s
  | none =>
    match s.owner with
    | some _ => (.error .CONFLICT, s)
    | none => (.error .NOT_FOUND, s)

/-- Modelled from the spec:
esp_ble_mesh_provisioner_release_settings_with_index, valid only from
RESTORED. The live in-memory snapshot is cleared; with erase the backing
region and its user_id mapping are wiped and the provisioner-enabled flag
is disabled, without erase the region and mapping are left intact. -/
def releaseIdx (i : Nat) (erase : Bool) (s : SMgr) : Except MeshErr Unit × SMgr :=
  match s.slots[i]? with
  | none => (.error .NOT_FOUND, s)
  | some sl =>
    if sl.st = .RESTORED then
      let sl' : Slot :=
        if erase then { st := .OPEN, uid := none, store := emptySnapshot }
        else { sl with st := .OPEN }
      (.ok (), { s with slots := s.slots.set i sl', owner := none,
                        live := emptySnapshot,
                        provEnabled := if erase then false else s.provEnabled })
    else (.error .INVALID_STATE, s)

/-- Modelled from the spec:
esp_ble_mesh_provisioner_release_settings_with_user_id. -/
def releaseUid (uid : String) (erase : Bool) (s : SMgr) : Except MeshErr Unit × SMgr :=
  match findUidIdx s uid with
  | some i => releaseIdx i erase s
  | none => (.error .NOT_FOUND, s)

/-- Modelled from the spec:
esp_ble_mesh_provisioner_close_settings_with_index releases the open
handle without touching data; only valid from OPEN. -/
def closeIdx (i : Nat) (s : SMgr) : Except MeshErr Unit × SMgr :=
  match s.slots[i]? with
  | none => (.error .NOT_FOUND, s)
  | some sl =>
    if sl.st = .OPEN then
      (.ok (), { s with slots := s.slots.set i { sl with st := .CLOSED } })
    else (.error .INVALID_STATE, s)

/-- Modelled from the spec:
esp_ble_mesh_provisioner_close_settings_with_user_id. -/
def closeUid (uid : String) (s : SMgr) : Except MeshErr Unit × SMgr :=
  match findUidIdx s uid with
  | some i => closeIdx i s
  | none => (.error .NOT_FOUND, s)

/-- Modelled from the spec:
esp_ble_mesh_provisioner_delete_settings_with_index, a direct
administrative erase of a region that must not currently be open; fails
CONFLICT otherwise. -/
def deleteIdx (i : Nat) (s : SMgr) : Except MeshErr Unit × SMgr :=
  match s.slots[i]? with
  | none => (.error .NOT_FOUND, s)
  | some sl =>
    if sl.st = .CLOSED then
      (.ok (), { s with slots := s.slots.set i initSlot })
    else (.error .CONFLICT, s)

/-- Modelled from the spec:
esp_ble_mesh_provisioner_delete_settings_with_user_id. -/
def deleteUid (uid : String) (s : SMgr) : Except MeshErr Unit × SMgr :=
  match findUidIdx s uid with
  | some i => deleteIdx i s
  | none => (.error .NOT_FOUND, s)

/-- Modelled from the spec:
esp_ble_mesh_provisioner_direct_erase_settings wipes every backing region;
only valid while no session anywhere is open or restored. -/
def directEraseSettings (s : SMgr) : Except MeshErr Unit × SMgr :=
  if s.slots.all (fun sl => sl.st == SessState.CLOSED) then
    (.ok (), { s with slots := s.slots.map (fun _ => initSlot) })
  else (.error .CONFLICT, s)

/-- Session Manager operations, over both identity spaces. -/
inductive MOp where
  | openI (i : Nat)
  | openU (uid : String)
  | restoreI (i : Nat)
  | restoreU (uid : String)
  | releaseI (i : Nat) (erase : Bool)
  | releaseU (uid : String) (erase : Bool)
  | closeI (i : Nat)
  | closeU (uid : String)
  | deleteI (i : Nat)
  | deleteU (uid : String)
  | eraseAll
deriving DecidableEq, Repr

/-- One step of the Session Manager: the result code and next state. -/
def stepM (s : SMgr) (op : MOp) : Except MeshErr Unit × SMgr :=
  match op with
  | .openI i => openIdx i s
  | .openU uid => openUid uid s
  | .restoreI i => restoreIdx i s
  | .restoreU uid => restoreUid uid s
  | .releaseI i e => releaseIdx i e s
  | .releaseU uid e => releaseUid uid e s
  | .closeI i => closeIdx i s
  | .closeU uid => closeUid uid s
  | .deleteI i => deleteIdx i s
  | .deleteU uid => deleteUid uid s
  | .eraseAll => directEraseSettings s

/-- State transition of a Session Manager operation (result code
dropped; on failure the state is unchanged). -/
def applyM (s : SMgr) (op : MOp) : SMgr :=
  (stepM s op).2

/-- The manager state reached from the initial state with n slots by a
sequence of operations. -/
def runM (n : Nat) (ops : List MOp) : SMgr :=
  ops.foldl applyM (initMgr n)

/-- The operation is a restore (either identity space). -/
def isRestoreOp (op : MOp) : Bool :=
  match op with
  | .restoreI _ => true
  | .restoreU _ => true
  | _ => false

/-! ## Helper lemmas -/

/-- The index computed by leastFree is indeed free, by pigeonhole: among
the used.length + 1 candidates, at least one does not occur in used. -/
theorem leastFree_not_mem (used : List Nat) : leastFree used ∉ used := by
  have hex : ∃ n ∈ List.range (used.length + 1), (!(used.contains n)) = true := by
    by_contra hall
    push_neg at hall
    have hsub : List.range (used.length + 1) ⊆ used := by
      intro x hx
      have hx' := hall x hx
      simp only [Bool.not_eq_true, Bool.not_eq_false] at hx'
      simpa using hx'
    have h1 : (List.range (used.length + 1)).toFinset ⊆ used.toFinset := by
      intro x hx
      simp only [List.mem_toFinset] at hx ⊢
      exact hsub hx
    have h2 := Finset.card_le_card h1
    rw [List.toFinset_card_of_nodup (List.nodup_range _), List.length_range] at h2
    have h3 := List.toFinset_card_le used
    omega
  have hsome : ((List.range (used.length + 1)).find? (fun n => !(used.contains n))).isSome := by
    exact List.find?_isSome.mpr hex
  obtain ⟨j, hj⟩ := Option.isSome_iff_exists.mp hsome
  have hpj := List.find?_some hj
  simp only [Bool.not_eq_true', Bool.not_eq_true] at hpj
  unfold leastFree
  rw [hj]
  simpa using hpj

/-! ## Claim theorems: heartbeat filter type and remove -/

/-- C5: set-filter-type with a type different from the current one clears
all filter entries (the entry set becomes empty regardless of the prior
entry count), while setting the same type leaves the filter unchanged. -/
theorem setFilterType_clears_on_change :
    ∀ (f : HbFilter) (t : HbFilterType),
      (t ≠ f.ftype →
        (setHeartbeatFilterType t f).entries = [] ∧ (setHeartbeatFilterType t f).ftype = t) ∧
      (t = f.ftype → setHeartbeatFilterType t f = f) := by
  intro f t
  constructor
  · intro h
    unfold setHeartbeatFilterType
    rw [if_neg h]
    exact ⟨rfl, rfl⟩
  · intro h
    unfold setHeartbeatFilterType
    rw [if_pos h]

/-- Witness for C5 at a concrete filter with two entries. -/
theorem setFilterType_clears_on_change_witness :
    (setHeartbeatFilterType .whitelist
      ⟨.blacklist, [⟨some 1, none, 0, 0⟩, ⟨none, some 2, 0, 0⟩]⟩).entries = [] ∧
    setHeartbeatFilterType .blacklist
      ⟨.blacklist, [⟨some 1, none, 0, 0⟩, ⟨none, some 2, 0, 0⟩]⟩ =
      ⟨.blacklist, [⟨some 1, none, 0, 0⟩, ⟨none, some 2, 0, 0⟩]⟩ :=
  ⟨((setFilterType_clears_on_change
      ⟨.blacklist, [⟨some 1, none, 0, 0⟩, ⟨none, some 2, 0, 0⟩]⟩ .whitelist).1
      (by decide)).1,
   (setFilterType_clears_on_change
      ⟨.blacklist, [⟨some 1, none, 0, 0⟩, ⟨none, some 2, 0, 0⟩]⟩ .blacklist).2 rfl⟩

/-- C4: Remove with both addresses set deletes exactly the entries
matching both fields; Remove with one address set deletes every entry
whose corresponding field matches, regardless of the other field; a Remove
matching nothing succeeds and leaves the filter unchanged. -/
theorem removeFilter_semantics :
    ∀ (f : HbFilter) (a b ex : Nat),
      ((removeFilterEntry ⟨some a, some b, ex⟩ f).1 = .ok () ∧
        ∀ e, e ∈ (removeFilterEntry ⟨some a, some b, ex⟩ f).2.entries ↔
          (e ∈ f.entries ∧ ¬(e.src = some a ∧ e.dst = some b))) ∧
      ((removeFilterEntry ⟨some a, none, ex⟩ f).1 = .ok () ∧
        ∀ e, e ∈ (removeFilterEntry ⟨some a, none, ex⟩ f).2.entries ↔
          (e ∈ f.entries ∧ e.src ≠ some a)) ∧
      ((removeFilterEntry ⟨none, some b, ex⟩ f).1 = .ok () ∧
        ∀ e, e ∈ (removeFilterEntry ⟨none, some b, ex⟩ f).2.entries ↔
          (e ∈ f.entries ∧ e.dst ≠ some b)) ∧
      (∀ (info : HbFilterInfo), (info.hb_src.isSome ∨ info.hb_dst.isSome) →
        (∀ e ∈ f.entries, remMatches info e = false) →
        removeFilterEntry info f = (.ok (), f)) := by
  intro f a b ex
  refine ⟨⟨rfl, ?_⟩, ⟨rfl, ?_⟩, ⟨rfl, ?_⟩, ?_⟩
  · intro e
    simp [removeFilterEntry, remMatches, List.mem_filter, not_and]
    tauto
  · intro e
    simp [removeFilterEntry, remMatches, List.mem_filter]
  · intro e
    simp [removeFilterEntry, remMatches, List.mem_filter]
  · intro info hset hnone
    obtain ⟨src, dst, ex'⟩ := info
    have hrw : List.filter (fun e => !(remMatches ⟨src, dst, ex'⟩ e)) f.entries = f.entries :=
      List.filter_eq_self.mpr (fun e he => by rw [hnone e he]; rfl)
    cases src <;> cases dst
    · exact absurd hset (by simp)
    · simp only [removeFilterEntry]
      rw [hrw]
    · simp only [removeFilterEntry]
      rw [hrw]
    · simp only [removeFilterEntry]
      rw [hrw]

/-- Witness for C4 at a concrete three-entry filter: a source-only remove
succeeds and drops an entry with that source regardless of destination,
and a remove that matches nothing returns the filter unchanged. -/
theorem removeFilter_semantics_witness :
    (removeFilterEntry ⟨some 1, none, 5⟩
      ⟨.blacklist, [⟨some 1, some 2, 0, 0⟩, ⟨some 1, some 3, 0, 0⟩, ⟨some 4, some 2, 0, 0⟩]⟩).1 =
        .ok () ∧
    (⟨some 1, some 3, 0, 0⟩ : HbFilterEntry) ∉
      (removeFilterEntry ⟨some 1, none, 5⟩
        ⟨.blacklist, [⟨some 1, some 2, 0, 0⟩, ⟨some 1, some 3, 0, 0⟩, ⟨some 4, some 2, 0, 0⟩]⟩).2.entries ∧
    removeFilterEntry ⟨some 9, none, 5⟩
      ⟨.blacklist, [⟨some 1, some 2, 0, 0⟩, ⟨some 1, some 3, 0, 0⟩, ⟨some 4, some 2, 0, 0⟩]⟩ =
      (.ok (), ⟨.blacklist, [⟨some 1, some 2, 0, 0⟩, ⟨some 1, some 3, 0, 0⟩, ⟨some 4, some 2, 0, 0⟩]⟩) := by
  refine ⟨(removeFilter_semantics
      ⟨.blacklist, [⟨some 1, some 2, 0, 0⟩, ⟨some 1, some 3, 0, 0⟩, ⟨some 4, some 2, 0, 0⟩]⟩
      1 2 5).2.1.1, ?_, ?_⟩
  · intro hmem
    have h := ((removeFilter_semantics
      ⟨.blacklist, [⟨some 1, some 2, 0, 0⟩, ⟨some 1, some 3, 0, 0⟩, ⟨some 4, some 2, 0, 0⟩]⟩
      1 2 5).2.1.2 ⟨some 1, some 3, 0, 0⟩).mp hmem
    exact absurd rfl h.2
  · exact (removeFilter_semantics
      ⟨.blacklist, [⟨some 1, some 2, 0, 0⟩, ⟨some 1, some 3, 0, 0⟩, ⟨some 4, some 2, 0, 0⟩]⟩
      9 2 5).2.2.2 ⟨some 9, none, 5⟩ (by decide) (by decide)

/-! ## Claim theorems: key store error handling and node registry -/

/-- C7: adding an AppKey whose referenced NetKey index is not present in
the store fails with INVALID_REFERENCE and leaves the Key Store (NetKey
records, AppKey records, events, and hence the free-index allocation
derived from them) exactly unchanged. -/
theorem addAppKey_dangling_netkey :
    ∀ (s : KeyStore) (k : KeyVal) (n a : Nat),
      hasNetIdx s n = false →
      addAppKey k n a s = (.error .INVALID_REFERENCE, s) := by
  intro s k n a h
  unfold addAppKey
  rw [h]
  simp

/-- Witness for C7: an add-app-key against an empty store (NetKey index 5
absent) fails INVALID_REFERENCE with the store unchanged. -/
theorem addAppKey_dangling_netkey_witness :
    hasNetIdx ⟨[], [], []⟩ 5 = false ∧
    addAppKey [1, 2] 5 7 ⟨[], [], []⟩ = (.error .INVALID_REFERENCE, ⟨[], [], []⟩) :=
  ⟨rfl, addAppKey_dangling_netkey ⟨[], [], []⟩ [1, 2] 5 7 rfl⟩

/-- C10: get-node-name on a table index holding no node (an empty slot or
an index past the capacity) returns none rather than failing or returning
an arbitrary string, and a name is returned only when a node exists at
that index. -/
theorem getNodeName_empty_slot :
    ∀ (t : NodeTable) (idx : Nat),
      ((t[idx]? = none ∨ t[idx]? = some none) → getNodeName t idx = none) ∧
      (∀ nm, getNodeName t idx = some nm →
        ∃ n, t[idx]? = some (some n) ∧ n.name = nm) := by
  intro t idx
  constructor
  · rintro (h | h) <;> unfold getNodeName <;> rw [h]
  · intro nm h
    unfold getNodeName at h
    rcases hx : t[idx]? with _ | (_ | n)
    · rw [hx] at h
      cases h
    · rw [hx] at h
      cases h
    · rw [hx] at h
      exact ⟨n, rfl, Option.some.inj h⟩

/-- Witness for C10 on a one-node table: the empty slot and the
out-of-range index both give none, and the occupied slot yields the stored
name via an existing node. -/
theorem getNodeName_empty_slot_witness :
    getNodeName [none, some ⟨[1], 5, "light", []⟩] 0 = none ∧
    getNodeName [none, some ⟨[1], 5, "light", []⟩] 9 = none ∧
    ∃ n, ([none, some ⟨[1], 5, "light", []⟩] : NodeTable)[1]? = some (some n) ∧
      n.name = "light" :=
  ⟨(getNodeName_empty_slot [none, some ⟨[1], 5, "light", []⟩] 0).1 (Or.inr rfl),
   (getNodeName_empty_slot [none, some ⟨[1], 5, "light", []⟩] 9).1 (Or.inl rfl),
   (getNodeName_empty_slot [none, some ⟨[1], 5, "light", []⟩] 1).2 "light" rfl⟩

/-! ## Claim theorems: whitelist expiry -/

/-- C6: under the whitelist filter type, evaluation reports true exactly
on live matching entries: a match with a non-expired entry reports true;
if every matching entry has reached its non-zero expiry the beacon is not
reported; expired entries are lazily purged from the state by the
evaluation and from enumeration; and entries with expiry 0 never expire
and survive evaluation. -/
theorem whitelist_expiry_semantics :
    ∀ (f : HbFilter) (src dst now : Nat),
      f.ftype = .whitelist →
      ((∃ e ∈ f.entries, entryMatches src dst e = true ∧ expiredAt now e = false) →
        (evalHeartbeat src dst now f).1 = true) ∧
      ((∀ e ∈ f.entries, entryMatches src dst e = true → expiredAt now e = true) →
        (evalHeartbeat src dst now f).1 = false) ∧
      (∀ e ∈ f.entries, expiredAt now e = true →
        e ∉ (evalHeartbeat src dst now f).2.entries ∧
        e ∉ (enumFilterEntries now f).1) ∧
      (∀ e ∈ f.entries, e.expiry = 0 →
        e ∈ (evalHeartbeat src dst now f).2.entries) := by
  intro f src dst now hw
  obtain ⟨ft, es⟩ := f
  simp only at hw
  subst hw
  refine ⟨?_, ?_, ?_, ?_⟩
  · rintro ⟨e, he, hm, hx⟩
    simp only [evalHeartbeat, List.any_eq_true]
    exact ⟨e, List.mem_filter.mpr ⟨he, by rw [hx]; rfl⟩, hm⟩
  · intro hall
    simp only [evalHeartbeat]
    rw [Bool.eq_false_iff]
    intro hany
    obtain ⟨e, he, hm⟩ := List.any_eq_true.mp hany
    obtain ⟨he', hlive⟩ := List.mem_filter.mp he
    rw [hall e he' hm] at hlive
    cases hlive
  · intro e he hx
    constructor
    · intro hmem
      simp only [evalHeartbeat] at hmem
      have := (List.mem_filter.mp hmem).2
      rw [hx] at this
      cases this
    · intro hmem
      simp only [enumFilterEntries] at hmem
      have := (List.mem_filter.mp hmem).2
      rw [hx] at this
      cases this
  · intro e he h0
    simp only [evalHeartbeat]
    refine List.mem_filter.mpr ⟨he, ?_⟩
    simp [expiredAt, h0]

/-- Witness for C6: the spec scenario. A whitelist entry for source 0x10
with expiry 5 added at time 0 makes evaluation report true at time 0;
at time 10 evaluation reports false and the entry is purged from the
resulting state and from enumeration. -/
theorem whitelist_expiry_semantics_witness :
    (evalHeartbeat 0x10 0 0 ⟨.whitelist, [⟨some 0x10, none, 5, 0⟩]⟩).1 = true ∧
    (evalHeartbeat 0x10 0 10 ⟨.whitelist, [⟨some 0x10, none, 5, 0⟩]⟩).1 = false ∧
    (⟨some 0x10, none, 5, 0⟩ : HbFilterEntry) ∉
      (evalHeartbeat 0x10 0 10 ⟨.whitelist, [⟨some 0x10, none, 5, 0⟩]⟩).2.entries ∧
    (⟨some 0x10, none, 5, 0⟩ : HbFilterEntry) ∉
      (enumFilterEntries 10 ⟨.whitelist, [⟨some 0x10, none, 5, 0⟩]⟩).1 := by
  refine ⟨?_, ?_, ?_, ?_⟩
  · exact (whitelist_expiry_semantics ⟨.whitelist, [⟨some 0x10, none, 5, 0⟩]⟩
      0x10 0 0 rfl).1 ⟨⟨some 0x10, none, 5, 0⟩, by decide, by decide, by decide⟩
  · exact (whitelist_expiry_semantics ⟨.whitelist, [⟨some 0x10, none, 5, 0⟩]⟩
      0x10 0 10 rfl).2.1 (by decide)
  · exact ((whitelist_expiry_semantics ⟨.whitelist, [⟨some 0x10, none, 5, 0⟩]⟩
      0x10 0 10 rfl).2.2.1 ⟨some 0x10, none, 5, 0⟩ (by decide) (by decide)).1
  · exact ((whitelist_expiry_semantics ⟨.whitelist, [⟨some 0x10, none, 5, 0⟩]⟩
      0x10 0 10 rfl).2.2.1 ⟨some 0x10, none, 5, 0⟩ (by decide) (by decide)).2

/-! ## Claim theorems: filter add merge rule -/

/-- A filter keeps no element on which the predicate is false everywhere. -/
theorem length_filter_eq_zero {α : Type} (p : α → Bool) (l : List α)
    (h : ∀ e ∈ l, p e = false) : (l.filter p).length = 0 := by
  induction l with
  | nil => rfl
  | cons x xs ih =>
    have hx := h x (List.mem_cons_self x xs)
    rw [List.filter_cons]
    simp only [hx, Bool.false_eq_true, if_false]
    exact ih (fun e he => h e (List.mem_cons_of_mem x he))

/-- countSrc distributes over append. -/
theorem countSrc_append (es1 es2 : List HbFilterEntry) (a : Nat) :
    countSrc (es1 ++ es2) a = countSrc es1 a + countSrc es2 a := by
  unfold countSrc
  rw [List.filter_append, List.length_append]

/-- countDst distributes over append. -/
theorem countDst_append (es1 es2 : List HbFilterEntry) (b : Nat) :
    countDst (es1 ++ es2) b = countDst es1 b + countDst es2 b := by
  unfold countDst
  rw [List.filter_append, List.length_append]

/-- countSrc is monotone along sublists. -/
theorem countSrc_le_of_sublist {es1 es2 : List HbFilterEntry}
    (h : es1.Sublist es2) (a : Nat) : countSrc es1 a ≤ countSrc es2 a :=
  (List.Sublist.filter _ h).length_le

/-- countDst is monotone along sublists. -/
theorem countDst_le_of_sublist {es1 es2 : List HbFilterEntry}
    (h : es1.Sublist es2) (b : Nat) : countDst es1 b ≤ countDst es2 b :=
  (List.Sublist.filter _ h).length_le

/-- C3: a successful filter Add leaves each address in at most one entry:
every pre-existing entry sharing the given source or destination is gone,
the given source (resp. destination) occurs in exactly one entry, namely
the freshly inserted one carrying the provided fields and the latest
stamp, and per-address uniqueness of sources and destinations is
preserved. -/
theorem addFilter_addr_unique :
    ∀ (f : HbFilter) (info : HbFilterInfo) (now : Nat) (f' : HbFilter),
      addFilterEntry now info f = (.ok (), f') →
      (∀ a, info.hb_src = some a →
        countSrc f'.entries a = 1 ∧
        ∀ e ∈ f'.entries, e.src = some a →
          e = ⟨info.hb_src, info.hb_dst, info.expiry, now⟩) ∧
      (∀ b, info.hb_dst = some b →
        countDst f'.entries b = 1 ∧
        ∀ e ∈ f'.entries, e.dst = some b →
          e = ⟨info.hb_src, info.hb_dst, info.expiry, now⟩) ∧
      ((∀ a, countSrc f.entries a ≤ 1) → ∀ a, countSrc f'.entries a ≤ 1) ∧
      ((∀ b, countDst f.entries b ≤ 1) → ∀ b, countDst f'.entries b ≤ 1) := by
  intro f info now f' hok
  have hent : f'.entries =
      f.entries.filter (fun e => !(sharesSrc info e || sharesDst info e)) ++
        [⟨info.hb_src, info.hb_dst, info.expiry, now⟩] := by
    unfold addFilterEntry at hok
    by_cases h1 : (info.hb_src.isNone && info.hb_dst.isNone) = true
    · rw [if_pos h1] at hok
      exact absurd (congrArg Prod.fst hok) (by simp)
    · rw [if_neg h1] at hok
      simp only at hok
      by_cases h2 : MAX_FILTER_ENTRIES ≤
          (f.entries.filter (fun e => !(sharesSrc info e || sharesDst info e))).length
      · rw [if_pos h2] at hok
        exact absurd (congrArg Prod.fst hok) (by simp)
      · rw [if_neg h2] at hok
        have h3 := congrArg Prod.snd hok
        simp only at h3
        rw [← h3]
  refine ⟨?_, ?_, ?_, ?_⟩
  · intro a ha
    have hkept0 : countSrc
        (f.entries.filter (fun e => !(sharesSrc info e || sharesDst info e))) a = 0 := by
      apply length_filter_eq_zero
      intro e he
      have hk := (List.mem_filter.mp he).2
      rw [Bool.not_eq_true', Bool.or_eq_false_iff] at hk
      have hs := hk.1
      unfold sharesSrc at hs
      rw [ha] at hs
      simp only [Option.isSome_some, Bool.true_and] at hs
      exact hs
    have hnew1 : countSrc [⟨info.hb_src, info.hb_dst, info.expiry, now⟩] a = 1 := by
      unfold countSrc
      simp [List.filter_cons, ha]
    constructor
    · rw [hent, countSrc_append, hkept0, hnew1]
    · intro e he hsrc
      rw [hent] at he
      rcases List.mem_append.mp he with h | h
      · exfalso
        have hk := (List.mem_filter.mp h).2
        rw [Bool.not_eq_true', Bool.or_eq_false_iff] at hk
        have hs := hk.1
        unfold sharesSrc at hs
        rw [ha] at hs
        simp [hsrc] at hs
      · simpa using h
  · intro b hb
    have hkept0 : countDst
        (f.entries.filter (fun e => !(sharesSrc info e || sharesDst info e))) b = 0 := by
      apply length_filter_eq_zero
      intro e he
      have hk := (List.mem_filter.mp he).2
      rw [Bool.not_eq_true', Bool.or_eq_false_iff] at hk
      have hs := hk.2
      unfold sharesDst at hs
      rw [hb] at hs
      simp only [Option.isSome_some, Bool.true_and] at hs
      exact hs
    have hnew1 : countDst [⟨info.hb_src, info.hb_dst, info.expiry, now⟩] b = 1 := by
      unfold countDst
      simp [List.filter_cons, hb]
    constructor
    · rw [hent, countDst_append, hkept0, hnew1]
    · intro e he hdst
      rw [hent] at he
      rcases List.mem_append.mp he with h | h
      · exfalso
        have hk := (List.mem_filter.mp h).2
        rw [Bool.not_eq_true', Bool.or_eq_false_iff] at hk
        have hs := hk.2
        unfold sharesDst at hs
        rw [hb] at hs
        simp [hdst] at hs
      · simpa using h
  · intro hinv a
    rw [hent, countSrc_append]
    have hkle : countSrc
        (f.entries.filter (fun e => !(sharesSrc info e || sharesDst info e))) a ≤
        countSrc f.entries a :=
      countSrc_le_of_sublist (List.filter_sublist _) a
    rcases hsrc : info.hb_src with _ | a'
    · have h0 : countSrc [⟨none, info.hb_dst, info.expiry, now⟩] a = 0 := by
        simp [countSrc, List.filter_cons]
      rw [h0]
      have := hinv a
      omega
    · by_cases haa : a' = a
      · subst haa
        have hkept0 : countSrc
            (f.entries.filter (fun e => !(sharesSrc info e || sharesDst info e))) a' = 0 := by
          apply length_filter_eq_zero
          intro e he
          have hk := (List.mem_filter.mp he).2
          rw [Bool.not_eq_true', Bool.or_eq_false_iff] at hk
          have hs := hk.1
          unfold sharesSrc at hs
          rw [hsrc] at hs
          simp only [Option.isSome_some, Bool.true_and] at hs
          exact hs
        have hnew1 : countSrc [⟨some a', info.hb_dst, info.expiry, now⟩] a' = 1 := by
          simp [countSrc, List.filter_cons]
        omega
      · have h0 : countSrc [⟨some a', info.hb_dst, info.expiry, now⟩] a = 0 := by
          simp [countSrc, List.filter_cons, haa]
        rw [h0]
        have := hinv a
        omega
  · intro hinv b
    rw [hent, countDst_append]
    have hkle : countDst
        (f.entries.filter (fun e => !(sharesSrc info e || sharesDst info e))) b ≤
        countDst f.entries b :=
      countDst_le_of_sublist (List.filter_sublist _) b
    rcases hdst : info.hb_dst with _ | b'
    · have h0 : countDst [⟨info.hb_src, none, info.expiry, now⟩] b = 0 := by
        simp [countDst, List.filter_cons]
      rw [h0]
      have := hinv b
      omega
    · by_cases hbb : b' = b
      · subst hbb
        have hkept0 : countDst
            (f.entries.filter (fun e => !(sharesSrc info e || sharesDst info e))) b' = 0 := by
          apply length_filter_eq_zero
          intro e he
          have hk := (List.mem_filter.mp he).2
          rw [Bool.not_eq_true', Bool.or_eq_false_iff] at hk
          have hs := hk.2
          unfold sharesDst at hs
          rw [hdst] at hs
          simp only [Option.isSome_some, Bool.true_and] at hs
          exact hs
        have hnew1 : countDst [⟨info.hb_src, some b', info.expiry, now⟩] b' = 1 := by
          simp [countDst, List.filter_cons]
        omega
      · have h0 : countDst [⟨info.hb_src, some b', info.expiry, now⟩] b = 0 := by
          simp [countDst, List.filter_cons, hbb]
        rw [h0]
        have := hinv b
        omega

/-- Witness for C3: adding source 1 twice (destinations 2 then 9) on a
whitelist leaves exactly one entry with source 1, and the first entry
(destination 2, old stamp) is gone. -/
theorem addFilter_addr_unique_witness :
    countSrc (⟨.whitelist, [⟨some 1, some 9, 7, 3⟩]⟩ : HbFilter).entries 1 = 1 ∧
    (⟨some 1, some 2, 5, 0⟩ : HbFilterEntry) ∉
      (⟨.whitelist, [⟨some 1, some 9, 7, 3⟩]⟩ : HbFilter).entries ∧
    addFilterEntry 0 ⟨some 1, some 2, 5⟩ ⟨.whitelist, []⟩ =
      (.ok (), ⟨.whitelist, [⟨some 1, some 2, 5, 0⟩]⟩) := by
  refine ⟨?_, ?_, rfl⟩
  · exact ((addFilter_addr_unique ⟨.whitelist, [⟨some 1, some 2, 5, 0⟩]⟩
      ⟨some 1, some 9, 7⟩ 3 ⟨.whitelist, [⟨some 1, some 9, 7, 3⟩]⟩ rfl).1 1 rfl).1
  · intro hmem
    have h := ((addFilter_addr_unique ⟨.whitelist, [⟨some 1, some 2, 5, 0⟩]⟩
      ⟨some 1, some 9, 7⟩ 3 ⟨.whitelist, [⟨some 1, some 9, 7, 3⟩]⟩ rfl).1 1 rfl).2
      ⟨some 1, some 2, 5, 0⟩ hmem rfl
    exact absurd h (by decide)

/-! ## Claim theorems: key round-trips -/

/-- Replacing every element on which g holds by a fixed element found by
find?: if the list contains an element satisfying p, so does the mapped
list, under a replacement that preserves p. -/
theorem find?_map_replace {α : Type} (p g : α → Bool) (y : α) (l : List α)
    (h : l.any p = true) (hy : p y = true)
    (hg : ∀ r, p r = true → g r = true) :
    (l.map (fun r => if g r then y else r)).find? p = some y := by
  induction l with
  | nil => simp at h
  | cons x xs ih =>
    rw [List.map_cons]
    by_cases hx : g x = true
    · rw [if_pos hx]
      exact List.find?_cons_of_pos _ hy
    · rw [if_neg hx]
      have hpx : ¬ p x = true := fun hp => hx (hg x hp)
      rw [List.find?_cons_of_neg _ hpx]
      apply ih
      rw [List.any_cons] at h
      rcases Bool.or_eq_true_iff.mp h with h1 | h1
      · exact absurd h1 hpx
      · exact h1

/-- A NetKey index is present exactly when it occurs among the stored
record indices. -/
theorem hasNetIdx_iff_mem (s : KeyStore) (i : Nat) :
    hasNetIdx s i = true ↔ i ∈ s.netKeys.map NetKeyRec.idx := by
  simp only [hasNetIdx, List.any_eq_true, List.mem_map]
  constructor
  · rintro ⟨r, hr, hp⟩
    exact ⟨r, hr, eq_of_beq hp⟩
  · rintro ⟨r, hr, hp⟩
    exact ⟨r, hr, hp ▸ beq_self_eq_true r.idx⟩

/-- An AppKey index is present exactly when it occurs among the stored
record app indices. -/
theorem hasAppIdx_iff_mem (s : KeyStore) (i : Nat) :
    hasAppIdx s i = true ↔ i ∈ s.appKeys.map AppKeyRec.app_idx := by
  simp only [hasAppIdx, List.any_eq_true, List.mem_map]
  constructor
  · rintro ⟨r, hr, hp⟩
    exact ⟨r, hr, eq_of_beq hp⟩
  · rintro ⟨r, hr, hp⟩
    exact ⟨r, hr, hp ▸ beq_self_eq_true r.app_idx⟩

/-- C9: add-key followed by get-key on the same index returns the stored
16-byte value, and update-key followed by get-key returns the new value
under the unchanged index, for NetKeys and for AppKeys alike. -/
theorem key_roundtrip :
    (∀ (s : KeyStore) (k : KeyVal) (i : Nat),
      i < GEN_IDX → hasNetIdx s i = false →
      (addNetKey k i s).1 = .ok i ∧ getNetKey i (addNetKey k i s).2 = some k) ∧
    (∀ (s : KeyStore) (k : KeyVal) (i : Nat),
      hasNetIdx s i = true →
      (updateNetKey k i s).1 = .ok () ∧ getNetKey i (updateNetKey k i s).2 = some k) ∧
    (∀ (s : KeyStore) (k : KeyVal) (n a : Nat),
      hasNetIdx s n = true → a < GEN_IDX → hasAppIdx s a = false →
      (addAppKey k n a s).1 = .ok a ∧ getAppKey n a (addAppKey k n a s).2 = some k) ∧
    (∀ (s : KeyStore) (k : KeyVal) (n a : Nat),
      s.appKeys.any (fun r => r.app_idx == a && r.net_idx == n) = true →
      (updateAppKey k n a s).1 = .ok () ∧
        getAppKey n a (updateAppKey k n a s).2 = some k) := by
  refine ⟨?_, ?_, ?_, ?_⟩
  · intro s k i hlt habs
    have hne : (i == GEN_IDX) = false := by
      rw [beq_eq_false_iff_ne]
      omega
    have hngt : ¬ (GEN_IDX < i) := by omega
    unfold addNetKey
    rw [hne]
    simp only [Bool.false_eq_true, if_false, if_neg hngt, habs]
    refine ⟨by trivial, ?_⟩
    unfold getNetKey
    simp only
    rw [List.find?_append]
    have hfind : s.netKeys.find? (fun r => r.idx == i) = none := by
      rw [List.find?_eq_none]
      intro r hr hp
      have : hasNetIdx s i = true := List.any_eq_true.mpr ⟨r, hr, hp⟩
      rw [habs] at this
      cases this
    rw [hfind]
    simp
  · intro s k i hpres
    have hpres' : s.netKeys.any (fun r => r.idx == i) = true := hpres
    unfold updateNetKey
    rw [if_pos hpres]
    refine ⟨rfl, ?_⟩
    unfold getNetKey
    simp only
    have hrepl := find?_map_replace (fun r => r.idx == i) (fun r => r.idx == i)
      (⟨i, k⟩ : NetKeyRec) s.netKeys hpres' (beq_self_eq_true i)
      (fun _ h => h)
    simp only [hrepl]
    rfl
  · intro s k n a hnet hlt habs
    have hne : (a == GEN_IDX) = false := by
      rw [beq_eq_false_iff_ne]
      omega
    have hngt : ¬ (GEN_IDX < a) := by omega
    unfold addAppKey
    rw [hnet]
    simp only [Bool.not_true, Bool.false_eq_true, if_false]
    rw [hne]
    simp only [Bool.false_eq_true, if_false, if_neg hngt, habs]
    refine ⟨by trivial, ?_⟩
    unfold getAppKey
    simp only
    rw [List.find?_append]
    have hfind : s.appKeys.find? (fun r => r.app_idx == a && r.net_idx == n) = none := by
      rw [List.find?_eq_none]
      intro r hr hp
      rw [Bool.and_eq_true] at hp
      have : hasAppIdx s a = true := List.any_eq_true.mpr ⟨r, hr, hp.1⟩
      rw [habs] at this
      cases this
    rw [hfind]
    simp
  · intro s k n a hpres
    unfold updateAppKey
    rw [if_pos hpres]
    refine ⟨rfl, ?_⟩
    unfold getAppKey
    simp only
    have hrepl := find?_map_replace (fun r => r.app_idx == a && r.net_idx == n)
      (fun r => r.app_idx == a && r.net_idx == n)
      (⟨a, n, k⟩ : AppKeyRec) s.appKeys hpres (by simp)
      (fun _ h => h)
    simp only [hrepl]
    rfl

/-- Witness for C9: concrete round-trips through a store holding NetKey 2,
adding NetKey 4, updating NetKey 2, adding AppKey 6 under NetKey 2 and
updating it. -/
theorem key_roundtrip_witness :
    (addNetKey [9] 4 ⟨[⟨2, [1]⟩], [], []⟩).1 = .ok 4 ∧
    getNetKey 4 (addNetKey [9] 4 ⟨[⟨2, [1]⟩], [], []⟩).2 = some [9] ∧
    getNetKey 2 (updateNetKey [7] 2 ⟨[⟨2, [1]⟩], [], []⟩).2 = some [7] ∧
    getAppKey 2 6 (addAppKey [5] 2 6 ⟨[⟨2, [1]⟩], [], []⟩).2 = some [5] ∧
    getAppKey 2 6 (updateAppKey [8] 2 6 ⟨[⟨2, [1]⟩], [⟨6, 2, [5]⟩], []⟩).2 = some [8] := by
  refine ⟨?_, ?_, ?_, ?_, ?_⟩
  · exact (key_roundtrip.1 ⟨[⟨2, [1]⟩], [], []⟩ [9] 4 (by decide) rfl).1
  · exact (key_roundtrip.1 ⟨[⟨2, [1]⟩], [], []⟩ [9] 4 (by decide) rfl).2
  · exact (key_roundtrip.2.1 ⟨[⟨2, [1]⟩], [], []⟩ [7] 2 rfl).2
  · exact (key_roundtrip.2.2.1 ⟨[⟨2, [1]⟩], [], []⟩ [5] 2 6 rfl (by decide) rfl).2
  · exact (key_roundtrip.2.2.2 ⟨[⟨2, [1]⟩], [⟨6, 2, [5]⟩], []⟩ [8] 2 6 rfl).2

/-! ## Claim theorems: generated key indices -/

/-- A map that replaces elements on which g holds by y preserves the
existence of an element satisfying q, provided replacement cannot destroy
q on the replaced element. -/
theorem any_map_ite {α : Type} (q g : α → Bool) (y : α) (l : List α)
    (h : l.any q = true) (hpres : ∀ r, q r = true → g r = true → q y = true) :
    (l.map (fun r => if g r then y else r)).any q = true := by
  rcases List.any_eq_true.mp h with ⟨r, hr, hq⟩
  apply List.any_eq_true.mpr
  refine ⟨if g r then y else r, List.mem_map.mpr ⟨r, hr, rfl⟩, ?_⟩
  by_cases hg : g r = true
  · rw [if_pos hg]
    exact hpres r hq hg
  · rw [if_neg hg]
    exact hq

/-- The NetKey record list after any Key Store operation is either an
extension of the old list or an index-preserving in-place replacement
(the store offers no deletion). -/
theorem netKeys_applyKSOp (s : KeyStore) (op : KSOp) :
    (∃ ext, (applyKSOp s op).netKeys = s.netKeys ++ ext) ∨
    (∃ j k, (applyKSOp s op).netKeys =
      s.netKeys.map (fun r => if r.idx == j then (⟨j, k⟩ : NetKeyRec) else r)) := by
  cases op with
  | addNet k j =>
    have hred : applyKSOp s (KSOp.addNet k j) = (addNetKey k j s).2 := rfl
    rw [hred]
    unfold addNetKey
    by_cases h1 : (j == GEN_IDX) = true
    · rw [if_pos h1]
      exact Or.inl ⟨[⟨freeNetIdx s, k⟩], rfl⟩
    · rw [if_neg h1]
      by_cases h2 : GEN_IDX < j
      · rw [if_pos h2]
        exact Or.inl ⟨[], (List.append_nil _).symm⟩
      · rw [if_neg h2]
        by_cases h3 : hasNetIdx s j = true
        · rw [if_pos h3]
          exact Or.inl ⟨[], (List.append_nil _).symm⟩
        · rw [if_neg h3]
          exact Or.inl ⟨[⟨j, k⟩], rfl⟩
  | updateNet k j =>
    have hred : applyKSOp s (KSOp.updateNet k j) = (updateNetKey k j s).2 := rfl
    rw [hred]
    unfold updateNetKey
    by_cases h1 : hasNetIdx s j = true
    · rw [if_pos h1]
      exact Or.inr ⟨j, k, rfl⟩
    · rw [if_neg h1]
      exact Or.inl ⟨[], (List.append_nil _).symm⟩
  | addApp k n a =>
    have hred : applyKSOp s (KSOp.addApp k n a) = (addAppKey k n a s).2 := rfl
    rw [hred]
    unfold addAppKey
    by_cases h1 : hasNetIdx s n = true
    · rw [if_neg (by rw [h1]; simp)]
      by_cases h2 : (a == GEN_IDX) = true
      · rw [if_pos h2]
        exact Or.inl ⟨[], (List.append_nil _).symm⟩
      · rw [if_neg h2]
        by_cases h3 : GEN_IDX < a
        · rw [if_pos h3]
          exact Or.inl ⟨[], (List.append_nil _).symm⟩
        · rw [if_neg h3]
          by_cases h4 : hasAppIdx s a = true
          · rw [if_pos h4]
            exact Or.inl ⟨[], (List.append_nil _).symm⟩
          · rw [if_neg h4]
            exact Or.inl ⟨[], (List.append_nil _).symm⟩
    · have h1' : hasNetIdx s n = false := by simpa using h1
      rw [if_pos (by rw [h1']; rfl)]
      exact Or.inl ⟨[], (List.append_nil _).symm⟩
  | updateApp k n a =>
    have hred : applyKSOp s (KSOp.updateApp k n a) = (updateAppKey k n a s).2 := rfl
    rw [hred]
    unfold updateAppKey
    by_cases h1 : s.appKeys.any (fun r => r.app_idx == a && r.net_idx == n) = true
    · rw [if_pos h1]
      exact Or.inl ⟨[], (List.append_nil _).symm⟩
    · rw [if_neg h1]
      exact Or.inl ⟨[], (List.append_nil _).symm⟩

/-- The AppKey record list after any Key Store operation is either an
extension of the old list or an index-preserving in-place replacement. -/
theorem appKeys_applyKSOp (s : KeyStore) (op : KSOp) :
    (∃ ext, (applyKSOp s op).appKeys = s.appKeys ++ ext) ∨
    (∃ a n k, (applyKSOp s op).appKeys =
      s.appKeys.map (fun r =>
        if r.app_idx == a && r.net_idx == n then (⟨a, n, k⟩ : AppKeyRec) else r)) := by
  cases op with
  | addNet k j =>
    have hred : applyKSOp s (KSOp.addNet k j) = (addNetKey k j s).2 := rfl
    rw [hred]
    unfold addNetKey
    by_cases h1 : (j == GEN_IDX) = true
    · rw [if_pos h1]
      exact Or.inl ⟨[], (List.append_nil _).symm⟩
    · rw [if_neg h1]
      by_cases h2 : GEN_IDX < j
      · rw [if_pos h2]
        exact Or.inl ⟨[], (List.append_nil _).symm⟩
      · rw [if_neg h2]
        by_cases h3 : hasNetIdx s j = true
        · rw [if_pos h3]
          exact Or.inl ⟨[], (List.append_nil _).symm⟩
        · rw [if_neg h3]
          exact Or.inl ⟨[], (List.append_nil _).symm⟩
  | updateNet k j =>
    have hred : applyKSOp s (KSOp.updateNet k j) = (updateNetKey k j s).2 := rfl
    rw [hred]
    unfold updateNetKey
    by_cases h1 : hasNetIdx s j = true
    · rw [if_pos h1]
      exact Or.inl ⟨[], (List.append_nil _).symm⟩
    · rw [if_neg h1]
      exact Or.inl ⟨[], (List.append_nil _).symm⟩
  | addApp k n a =>
    have hred : applyKSOp s (KSOp.addApp k n a) = (addAppKey k n a s).2 := rfl
    rw [hred]
    unfold addAppKey
    by_cases h1 : hasNetIdx s n = true
    · rw [if_neg (by rw [h1]; simp)]
      by_cases h2 : (a == GEN_IDX) = true
      · rw [if_pos h2]
        exact Or.inl ⟨[⟨freeAppIdx s, n, k⟩], rfl⟩
      · rw [if_neg h2]
        by_cases h3 : GEN_IDX < a
        · rw [if_pos h3]
          exact Or.inl ⟨[], (List.append_nil _).symm⟩
        · rw [if_neg h3]
          by_cases h4 : hasAppIdx s a = true
          · rw [if_pos h4]
            exact Or.inl ⟨[], (List.append_nil _).symm⟩
          · rw [if_neg h4]
            exact Or.inl ⟨[⟨a, n, k⟩], rfl⟩
    · have h1' : hasNetIdx s n = false := by simpa using h1
      rw [if_pos (by rw [h1']; rfl)]
      exact Or.inl ⟨[], (List.append_nil _).symm⟩
  | updateApp k n a =>
    have hred : applyKSOp s (KSOp.updateApp k n a) = (updateAppKey k n a s).2 := rfl
    rw [hred]
    unfold updateAppKey
    by_cases h1 : s.appKeys.any (fun r => r.app_idx == a && r.net_idx == n) = true
    · rw [if_pos h1]
      exact Or.inr ⟨a, n, k, rfl⟩
    · rw [if_neg h1]
      exact Or.inl ⟨[], (List.append_nil _).symm⟩

/-- Key Store operations never remove a present NetKey index. -/
theorem hasNetIdx_mono (s : KeyStore) (op : KSOp) (i : Nat)
    (h : hasNetIdx s i = true) : hasNetIdx (applyKSOp s op) i = true := by
  rcases netKeys_applyKSOp s op with ⟨ext, hext⟩ | ⟨j, k, hmap⟩
  · unfold hasNetIdx at h ⊢
    rw [hext, List.any_append, h, Bool.true_or]
  · unfold hasNetIdx at h ⊢
    rw [hmap]
    apply any_map_ite _ _ _ _ h
    intro r hq hg
    have h1 := eq_of_beq hq
    have h2 := eq_of_beq hg
    show (j == i) = true
    rw [← h2, h1]
    exact beq_self_eq_true i

/-- Key Store operations never remove a present AppKey index. -/
theorem hasAppIdx_mono (s : KeyStore) (op : KSOp) (i : Nat)
    (h : hasAppIdx s i = true) : hasAppIdx (applyKSOp s op) i = true := by
  rcases appKeys_applyKSOp s op with ⟨ext, hext⟩ | ⟨a, n, k, hmap⟩
  · unfold hasAppIdx at h ⊢
    rw [hext, List.any_append, h, Bool.true_or]
  · unfold hasAppIdx at h ⊢
    rw [hmap]
    apply any_map_ite _ _ _ _ h
    intro r hq hg
    have h1 := eq_of_beq hq
    rw [Bool.and_eq_true] at hg
    have h2 := eq_of_beq hg.1
    show (a == i) = true
    rw [← h2, h1]
    exact beq_self_eq_true i

/-- NetKey index presence is preserved along any operation sequence. -/
theorem hasNetIdx_foldl (ops : List KSOp) (s : KeyStore) (i : Nat)
    (h : hasNetIdx s i = true) : hasNetIdx (ops.foldl applyKSOp s) i = true := by
  induction ops generalizing s with
  | nil => exact h
  | cons op rest ih => exact ih _ (hasNetIdx_mono s op i h)

/-- AppKey index presence is preserved along any operation sequence. -/
theorem hasAppIdx_foldl (ops : List KSOp) (s : KeyStore) (i : Nat)
    (h : hasAppIdx s i = true) : hasAppIdx (ops.foldl applyKSOp s) i = true := by
  induction ops generalizing s with
  | nil => exact h
  | cons op rest ih => exact ih _ (hasAppIdx_mono s op i h)

/-- C8: a generate-sentinel (0xFFFF) add allocates the next free index
(one not currently in the store), reports it through a generated-index
event appended to the event channel, and any later generate-sentinel add
of the same kind, after an arbitrary sequence of further Key Store
operations (which offer no deletion), allocates a distinct index; for
NetKeys and for AppKeys. -/
theorem generated_index_fresh :
    (∀ (s : KeyStore) (k k' : KeyVal) (i : Nat) (ops : List KSOp),
      (addNetKey k GEN_IDX s).1 = .ok i →
      i = freeNetIdx s ∧ hasNetIdx s i = false ∧
      (addNetKey k GEN_IDX s).2.events = s.events ++ [.netIdxGenerated i] ∧
      ∀ j, (addNetKey k' GEN_IDX (ops.foldl applyKSOp (addNetKey k GEN_IDX s).2)).1 = .ok j →
        j ≠ i) ∧
    (∀ (s : KeyStore) (k k' : KeyVal) (n n' i : Nat) (ops : List KSOp),
      (addAppKey k n GEN_IDX s).1 = .ok i →
      i = freeAppIdx s ∧ hasAppIdx s i = false ∧
      (addAppKey k n GEN_IDX s).2.events = s.events ++ [.appIdxGenerated i] ∧
      ∀ j, (addAppKey k' n' GEN_IDX (ops.foldl applyKSOp (addAppKey k n GEN_IDX s).2)).1 = .ok j →
        j ≠ i) := by
  constructor
  · intro s k k' i ops hok
    have hred : ∀ (kk : KeyVal) (t : KeyStore), addNetKey kk GEN_IDX t =
        (.ok (freeNetIdx t),
          ⟨t.netKeys ++ [⟨freeNetIdx t, kk⟩], t.appKeys,
            t.events ++ [.netIdxGenerated (freeNetIdx t)]⟩) := by
      intro kk t
      unfold addNetKey
      rw [if_pos (beq_self_eq_true GEN_IDX)]
    rw [hred] at hok
    have hi : i = freeNetIdx s := (Except.ok.inj hok).symm
    subst hi
    have hfree : hasNetIdx s (freeNetIdx s) = false := by
      rw [Bool.eq_false_iff]
      intro hmem
      exact leastFree_not_mem _ ((hasNetIdx_iff_mem s _).mp hmem)
    refine ⟨rfl, hfree, by rw [hred], ?_⟩
    intro j hok2
    have hin1 : hasNetIdx (addNetKey k GEN_IDX s).2 (freeNetIdx s) = true := by
      rw [hred]
      unfold hasNetIdx
      rw [List.any_append]
      simp
    have hin2 := hasNetIdx_foldl ops _ _ hin1
    rw [hred] at hok2
    have hj := Except.ok.inj hok2
    intro hji
    have hfree2 : hasNetIdx (ops.foldl applyKSOp (addNetKey k GEN_IDX s).2)
        (freeNetIdx (ops.foldl applyKSOp (addNetKey k GEN_IDX s).2)) = false := by
      rw [Bool.eq_false_iff]
      intro hm
      exact leastFree_not_mem _ ((hasNetIdx_iff_mem _ _).mp hm)
    rw [hj, hji] at hfree2
    rw [hin2] at hfree2
    cases hfree2
  · intro s k k' n n' i ops hok
    have hred : ∀ (kk : KeyVal) (m : Nat) (t : KeyStore), hasNetIdx t m = true →
        addAppKey kk m GEN_IDX t =
        (.ok (freeAppIdx t),
          ⟨t.netKeys, t.appKeys ++ [⟨freeAppIdx t, m, kk⟩],
            t.events ++ [.appIdxGenerated (freeAppIdx t)]⟩) := by
      intro kk m t hn
      unfold addAppKey
      rw [if_neg (by rw [hn]; simp)]
      rw [if_pos (beq_self_eq_true GEN_IDX)]
    have herr : ∀ (kk : KeyVal) (m : Nat) (t : KeyStore), hasNetIdx t m = false →
        (addAppKey kk m GEN_IDX t).1 = .error .INVALID_REFERENCE := by
      intro kk m t hm
      unfold addAppKey
      rw [if_pos (by rw [hm]; rfl)]
    by_cases hnet : hasNetIdx s n = true
    · rw [hred k n s hnet] at hok
      have hi : i = freeAppIdx s := (Except.ok.inj hok).symm
      subst hi
      have hfree : hasAppIdx s (freeAppIdx s) = false := by
        rw [Bool.eq_false_iff]
        intro hmem
        exact leastFree_not_mem _ ((hasAppIdx_iff_mem s _).mp hmem)
      refine ⟨rfl, hfree, by rw [hred k n s hnet], ?_⟩
      intro j hok2
      have hin1 : hasAppIdx (addAppKey k n GEN_IDX s).2 (freeAppIdx s) = true := by
        rw [hred k n s hnet]
        unfold hasAppIdx
        rw [List.any_append]
        simp
      have hin2 := hasAppIdx_foldl ops _ _ hin1
      by_cases hnet2 : hasNetIdx (ops.foldl applyKSOp (addAppKey k n GEN_IDX s).2) n' = true
      · rw [hred k' n' _ hnet2] at hok2
        have hj := Except.ok.inj hok2
        intro hji
        have hfree2 : hasAppIdx (ops.foldl applyKSOp (addAppKey k n GEN_IDX s).2)
            (freeAppIdx (ops.foldl applyKSOp (addAppKey k n GEN_IDX s).2)) = false := by
          rw [Bool.eq_false_iff]
          intro hm
          exact leastFree_not_mem _ ((hasAppIdx_iff_mem _ _).mp hm)
        rw [hj, hji] at hfree2
        rw [hin2] at hfree2
        cases hfree2
      · have hnet2' : hasNetIdx (ops.foldl applyKSOp (addAppKey k n GEN_IDX s).2) n' = false := by
          simpa using hnet2
        rw [herr k' n' _ hnet2'] at hok2
        cases hok2
    · have hnet' : hasNetIdx s n = false := by simpa using hnet
      rw [herr k n s hnet'] at hok
      cases hok

/-- Witness for C8: two sentinel adds on an initially empty store (NetKey
side) and on a store with NetKey 0 (AppKey side) allocate indices 0 and
then 1, reported via events, and the second differs from the first. -/
theorem generated_index_fresh_witness :
    (addNetKey [1] GEN_IDX ⟨[], [], []⟩).2.events = [.netIdxGenerated 0] ∧
    hasNetIdx ⟨[], [], []⟩ 0 = false ∧
    (1 : Nat) ≠ 0 ∧
    hasAppIdx ⟨[⟨0, [9]⟩], [], []⟩ 0 = false := by
  refine ⟨?_, ?_, ?_, ?_⟩
  · exact (generated_index_fresh.1 ⟨[], [], []⟩ [1] [2] 0 [] rfl).2.2.1
  · exact (generated_index_fresh.1 ⟨[], [], []⟩ [1] [2] 0 [] rfl).2.1
  · exact (generated_index_fresh.1 ⟨[], [], []⟩ [1] [2] 0 [] rfl).2.2.2 1 rfl
  · exact (generated_index_fresh.2 ⟨[⟨0, [9]⟩], [], []⟩ [1] [2] 0 0 0 [] rfl).2.1

/-! ## Session manager invariant -/

/-- The single-owner invariant of the Session Manager: a slot is in the
RESTORED state exactly when the process-wide owner marker names it. -/
def invP (slots : List Slot) (owner : Option Nat) : Prop :=
  ∀ i : Nat, (∃ sl, slots[i]? = some sl ∧ sl.st = SessState.RESTORED) ↔ owner = some i

/-- The invariant as a property of a manager state. -/
def InvR (s : SMgr) : Prop :=
  invP s.slots s.owner

theorem closed_ne_restored : SessState.CLOSED ≠ SessState.RESTORED := by
  decide

theorem open_ne_restored : SessState.OPEN ≠ SessState.RESTORED := by
  decide

/-- Replacing a non-RESTORED slot by a non-RESTORED slot preserves the
single-owner invariant with the owner untouched. -/
theorem invP_set (slots : List Slot) (owner : Option Nat) (i : Nat) (sl sl' : Slot)
    (h : invP slots owner) (hsl : slots[i]? = some sl)
    (h0 : sl.st ≠ .RESTORED) (h1 : sl'.st ≠ .RESTORED) :
    invP (slots.set i sl') owner := by
  intro j
  by_cases hij : i = j
  · subst hij
    constructor
    · rintro ⟨t, ht, hts⟩
      rw [List.getElem?_set, if_pos rfl] at ht
      rcases List.getElem?_eq_some.mp hsl with ⟨hlen, _⟩
      rw [if_pos hlen] at ht
      rw [← Option.some.inj ht] at hts
      exact absurd hts h1
    · intro hj
      obtain ⟨t, ht, hts⟩ := (h i).mpr hj
      rw [hsl] at ht
      rw [← Option.some.inj ht] at hts
      exact absurd hts h0
  · constructor
    · rintro ⟨t, ht, hts⟩
      rw [List.getElem?_set, if_neg hij] at ht
      exact (h j).mp ⟨t, ht, hts⟩
    · intro hj
      obtain ⟨t, ht, hts⟩ := (h j).mpr hj
      refine ⟨t, ?_, hts⟩
      rw [List.getElem?_set, if_neg hij]
      exact ht

/-- open-by-index preserves the single-owner invariant. -/
theorem invR_openIdx (i : Nat) (s : SMgr) (h : InvR s) : InvR (openIdx i s).2 := by
  unfold openIdx
  cases hsl : s.slots[i]? with
  | none => exact h
  | some sl =>
    dsimp only
    by_cases hcl : sl.st = .CLOSED
    · rw [if_pos hcl]
      exact invP_set s.slots s.owner i sl _ h hsl
        (by rw [hcl]; exact closed_ne_restored) open_ne_restored
    · rw [if_neg hcl]
      exact h

/-- open-by-user_id preserves the single-owner invariant. -/
theorem invR_openUid (uid : String) (s : SMgr) (h : InvR s) : InvR (openUid uid s).2 := by
  unfold openUid
  cases hf : findUidIdx s uid with
  | some i =>
    exact invR_openIdx i s h
  | none =>
    dsimp only
    cases hfree : findFreeSlot s with
    | none => exact h
    | some i =>
      dsimp only
      cases hsl : s.slots[i]? with
      | none => exact h
      | some sl =>
        dsimp only
        by_cases hcl : sl.st = .CLOSED
        · rw [if_pos hcl]
          exact invP_set s.slots s.owner i sl _ h hsl
            (by rw [hcl]; exact closed_ne_restored) open_ne_restored
        · rw [if_neg hcl]
          exact h

/-- restore-by-index preserves the single-owner invariant, establishing
the owner marker for the newly RESTORED slot. -/
theorem invR_restoreIdx (i : Nat) (s : SMgr) (h : InvR s) : InvR (restoreIdx i s).2 := by
  unfold restoreIdx
  cases how : s.owner with
  | some k =>
    dsimp only
    by_cases hk : k = i
    · rw [if_pos hk]; exact h
    · rw [if_neg hk]; exact h
  | none =>
    dsimp only
    cases hsl : s.slots[i]? with
    | none => exact h
    | some sl =>
      dsimp only
      by_cases hop : sl.st = .OPEN
      · rw [if_pos hop]
        intro j
        by_cases hij : i = j
        · subst hij
          constructor
          · intro _
            rfl
          · intro _
            refine ⟨{ sl with st := .RESTORED }, ?_, rfl⟩
            rcases List.getElem?_eq_some.mp hsl with ⟨hlen, _⟩
            rw [List.getElem?_set, if_pos rfl, if_pos hlen]
        · constructor
          · rintro ⟨t, ht, hts⟩
            rw [List.getElem?_set, if_neg hij] at ht
            have := (h j).mp ⟨t, ht, hts⟩
            rw [how] at this
            cases this
          · intro hj
            exact absurd (Option.some.inj hj) hij
      · rw [if_neg hop]; exact h

/-- restore-by-user_id preserves the single-owner invariant. -/
theorem invR_restoreUid (uid : String) (s : SMgr) (h : InvR s) :
    InvR (restoreUid uid s).2 := by
  unfold restoreUid
  cases hf : findUidIdx s uid with
  | some i => exact invR_restoreIdx i s h
  | none =>
    dsimp only
    cases how : s.owner with
    | some k => exact h
    | none => exact h

/-- release preserves the single-owner invariant, clearing the owner. -/
theorem invR_releaseIdx (i : Nat) (erase : Bool) (s : SMgr) (h : InvR s) :
    InvR (releaseIdx i erase s).2 := by
  unfold releaseIdx
  cases hsl : s.slots[i]? with
  | none => exact h
  | some sl =>
    dsimp only
    by_cases hr : sl.st = .RESTORED
    · rw [if_pos hr]
      intro j
      constructor
      · rintro ⟨t, ht, hts⟩
        by_cases hij : i = j
        · subst hij
          rw [List.getElem?_set, if_pos rfl] at ht
          rcases List.getElem?_eq_some.mp hsl with ⟨hlen, _⟩
          rw [if_pos hlen] at ht
          rw [← Option.some.inj ht] at hts
          revert hts
          cases erase
          · exact fun hx => absurd hx open_ne_restored
          · exact fun hx => absurd hx open_ne_restored
        · rw [List.getElem?_set, if_neg hij] at ht
          have hj := (h j).mp ⟨t, ht, hts⟩
          have hoi := (h i).mp ⟨sl, hsl, hr⟩
          rw [hj] at hoi
          exact absurd (Option.some.inj hoi).symm hij
      · intro hj
        cases hj
    · rw [if_neg hr]; exact h

/-- release-by-user_id preserves the single-owner invariant. -/
theorem invR_releaseUid (uid : String) (erase : Bool) (s : SMgr) (h : InvR s) :
    InvR (releaseUid uid erase s).2 := by
  unfold releaseUid
  cases hf : findUidIdx s uid with
  | some i => exact invR_releaseIdx i erase s h
  | none => exact h

/-- close-by-index preserves the single-owner invariant. -/
theorem invR_closeIdx (i : Nat) (s : SMgr) (h : InvR s) : InvR (closeIdx i s).2 := by
  unfold closeIdx
  cases hsl : s.slots[i]? with
  | none => exact h
  | some sl =>
    dsimp only
    by_cases hop : sl.st = .OPEN
    · rw [if_pos hop]
      exact invP_set s.slots s.owner i sl _ h hsl
        (by rw [hop]; exact open_ne_restored) closed_ne_restored
    · rw [if_neg hop]; exact h

/-- close-by-user_id preserves the single-owner invariant. -/
theorem invR_closeUid (uid : String) (s : SMgr) (h : InvR s) : InvR (closeUid uid s).2 := by
  unfold closeUid
  cases hf : findUidIdx s uid with
  | some i => exact invR_closeIdx i s h
  | none => exact h

/-- delete-by-index preserves the single-owner invariant. -/
theorem invR_deleteIdx (i : Nat) (s : SMgr) (h : InvR s) : InvR (deleteIdx i s).2 := by
  unfold deleteIdx
  cases hsl : s.slots[i]? with
  | none => exact h
  | some sl =>
    dsimp only
    by_cases hcl : sl.st = .CLOSED
    · rw [if_pos hcl]
      exact invP_set s.slots s.owner i sl _ h hsl
        (by rw [hcl]; exact closed_ne_restored) closed_ne_restored
    · rw [if_neg hcl]; exact h

/-- delete-by-user_id preserves the single-owner invariant. -/
theorem invR_deleteUid (uid : String) (s : SMgr) (h : InvR s) : InvR (deleteUid uid s).2 := by
  unfold deleteUid
  cases hf : findUidIdx s uid with
  | some i => exact invR_deleteIdx i s h
  | none => exact h

/-- direct-erase preserves the single-owner invariant. -/
theorem invR_directErase (s : SMgr) (h : InvR s) : InvR (directEraseSettings s).2 := by
  unfold directEraseSettings
  by_cases hall : s.slots.all (fun sl => sl.st == SessState.CLOSED) = true
  · rw [if_pos hall]
    intro j
    constructor
    · rintro ⟨t, ht, hts⟩
      rw [List.getElem?_map] at ht
      cases hj : s.slots[j]? with
      | none => rw [hj] at ht; cases ht
      | some sl =>
        rw [hj] at ht
        rw [← Option.some.inj ht] at hts
        exact absurd hts closed_ne_restored
    · intro hj
      obtain ⟨t, ht, hts⟩ := (h j).mpr hj
      have hmem : t ∈ s.slots := by
        rcases List.getElem?_eq_some.mp ht with ⟨hlen, hget⟩
        exact hget ▸ List.getElem_mem hlen
      have := List.all_eq_true.mp hall t hmem
      rw [hts] at this
      cases this
  · rw [if_neg hall]; exact h

/-- The single-owner invariant holds initially. -/
theorem invR_init (n : Nat) : InvR (initMgr n) := by
  intro i
  constructor
  · rintro ⟨t, ht, hts⟩
    have ht' : (List.replicate n initSlot)[i]? = some t := ht
    rw [List.getElem?_replicate] at ht'
    by_cases hlt : i < n
    · rw [if_pos hlt] at ht'
      rw [← Option.some.inj ht'] at hts
      exact absurd hts closed_ne_restored
    · rw [if_neg hlt] at ht'
      cases ht'
  · intro hj
    cases hj

/-- Every Session Manager operation preserves the single-owner invariant. -/
theorem invR_stepM (s : SMgr) (op : MOp) (h : InvR s) : InvR (applyM s op) := by
  cases op with
  | openI i => exact invR_openIdx i s h
  | openU uid => exact invR_openUid uid s h
  | restoreI i => exact invR_restoreIdx i s h
  | restoreU uid => exact invR_restoreUid uid s h
  | releaseI i e => exact invR_releaseIdx i e s h
  | releaseU uid e => exact invR_releaseUid uid e s h
  | closeI i => exact invR_closeIdx i s h
  | closeU uid => exact invR_closeUid uid s h
  | deleteI i => exact invR_deleteIdx i s h
  | deleteU uid => exact invR_deleteUid uid s h
  | eraseAll => exact invR_directErase s h

/-- The single-owner invariant holds in every reachable manager state. -/
theorem invR_runM (n : Nat) (ops : List MOp) : InvR (runM n ops) := by
  have hgen : ∀ (l : List MOp) (s : SMgr), InvR s → InvR (l.foldl applyM s) := by
    intro l
    induction l with
    | nil => exact fun s hs => hs
    | cons op rest ih => exact fun s hs => ih _ (invR_stepM s op hs)
  exact hgen ops (initMgr n) (invR_init n)

/-! ## Claim theorems: session exclusivity and release -/

/-- C1: in every reachable Session Manager state in which some session
slot is RESTORED, restoring any other identity — any other index, or any
user_id not bound to the restored slot — fails with CONFLICT and leaves
the whole state unchanged; the current session must be released first. -/
theorem restored_session_exclusive :
    ∀ (n : Nat) (ops : List MOp) (j : Nat) (sl : Slot),
      (runM n ops).slots[j]? = some sl → sl.st = .RESTORED →
      (∀ i, i ≠ j → restoreIdx i (runM n ops) = (.error .CONFLICT, runM n ops)) ∧
      (∀ uid, findUidIdx (runM n ops) uid ≠ some j →
        restoreUid uid (runM n ops) = (.error .CONFLICT, runM n ops)) := by
  intro n ops j sl hsl hst
  have hInv := invR_runM n ops
  have how : (runM n ops).owner = some j := (hInv j).mp ⟨sl, hsl, hst⟩
  have hidx : ∀ i, i ≠ j → restoreIdx i (runM n ops) = (.error .CONFLICT, runM n ops) := by
    intro i hij
    unfold restoreIdx
    rw [how]
    dsimp only
    rw [if_neg (fun hx => hij hx.symm)]
  refine ⟨hidx, ?_⟩
  intro uid huid
  unfold restoreUid
  cases hf : findUidIdx (runM n ops) uid with
  | some i =>
    have hij : i ≠ j := fun hx => huid (hx ▸ hf)
    exact hidx i hij
  | none =>
    dsimp only
    rw [how]

/-- Witness for C1: after opening and restoring slot 0 (of 2 slots),
slot 0 is RESTORED and restoring index 1 or the unknown user_id "u" fails
CONFLICT with the state unchanged. -/
theorem restored_session_exclusive_witness :
    restoreIdx 1 (runM 2 [.openI 0, .restoreI 0]) =
      (.error .CONFLICT, runM 2 [.openI 0, .restoreI 0]) ∧
    restoreUid "u" (runM 2 [.openI 0, .restoreI 0]) =
      (.error .CONFLICT, runM 2 [.openI 0, .restoreI 0]) := by
  have h := restored_session_exclusive 2 [.openI 0, .restoreI 0] 0
    ⟨.RESTORED, none, emptySnapshot⟩ rfl rfl
  exact ⟨h.1 1 (by decide), h.2 "u" (by decide)⟩

/-- open-by-index never enables the provisioner flag. -/
theorem prov_false_openIdx (i : Nat) (s : SMgr) (h : s.provEnabled = false) :
    (openIdx i s).2.provEnabled = false := by
  unfold openIdx
  cases hsl : s.slots[i]? with
  | none => exact h
  | some sl =>
    dsimp only
    split
    · exact h
    · exact h

/-- open-by-user_id never enables the provisioner flag. -/
theorem prov_false_openUid (uid : String) (s : SMgr) (h : s.provEnabled = false) :
    (openUid uid s).2.provEnabled = false := by
  unfold openUid
  cases hf : findUidIdx s uid with
  | some i => exact prov_false_openIdx i s h
  | none =>
    dsimp only
    cases hfree : findFreeSlot s with
    | none => exact h
    | some i =>
      dsimp only
      cases hsl : s.slots[i]? with
      | none => exact h
      | some sl =>
        dsimp only
        split
        · exact h
        · exact h

/-- release never enables the provisioner flag. -/
theorem prov_false_releaseIdx (i : Nat) (erase : Bool) (s : SMgr)
    (h : s.provEnabled = false) : (releaseIdx i erase s).2.provEnabled = false := by
  unfold releaseIdx
  cases hsl : s.slots[i]? with
  | none => exact h
  | some sl =>
    dsimp only
    split
    · show (if erase then false else s.provEnabled) = false
      cases erase
      · exact h
      · rfl
    · exact h

/-- release-by-user_id never enables the provisioner flag. -/
theorem prov_false_releaseUid (uid : String) (erase : Bool) (s : SMgr)
    (h : s.provEnabled = false) : (releaseUid uid erase s).2.provEnabled = false := by
  unfold releaseUid
  cases hf : findUidIdx s uid with
  | some i => exact prov_false_releaseIdx i erase s h
  | none => exact h

/-- close-by-index never enables the provisioner flag. -/
theorem prov_false_closeIdx (i : Nat) (s : SMgr) (h : s.provEnabled = false) :
    (closeIdx i s).2.provEnabled = false := by
  unfold closeIdx
  cases hsl : s.slots[i]? with
  | none => exact h
  | some sl =>
    dsimp only
    split
    · exact h
    · exact h

/-- close-by-user_id never enables the provisioner flag. -/
theorem prov_false_closeUid (uid : String) (s : SMgr) (h : s.provEnabled = false) :
    (closeUid uid s).2.provEnabled = false := by
  unfold closeUid
  cases hf : findUidIdx s uid with
  | some i => exact prov_false_closeIdx i s h
  | none => exact h

/-- delete-by-index never enables the provisioner flag. -/
theorem prov_false_deleteIdx (i : Nat) (s : SMgr) (h : s.provEnabled = false) :
    (deleteIdx i s).2.provEnabled = false := by
  unfold deleteIdx
  cases hsl : s.slots[i]? with
  | none => exact h
  | some sl =>
    dsimp only
    split
    · exact h
    · exact h

/-- delete-by-user_id never enables the provisioner flag. -/
theorem prov_false_deleteUid (uid : String) (s : SMgr) (h : s.provEnabled = false) :
    (deleteUid uid s).2.provEnabled = false := by
  unfold deleteUid
  cases hf : findUidIdx s uid with
  | some i => exact prov_false_deleteIdx i s h
  | none => exact h

/-- direct-erase never enables the provisioner flag. -/
theorem prov_false_directErase (s : SMgr) (h : s.provEnabled = false) :
    (directEraseSettings s).2.provEnabled = false := by
  unfold directEraseSettings
  split
  · exact h
  · exact h

/-- A successful restore-by-index enables the provisioner flag. -/
theorem prov_true_restoreIdx (i : Nat) (t t' : SMgr)
    (h : restoreIdx i t = (.ok (), t')) : t'.provEnabled = true := by
  unfold restoreIdx at h
  cases how : t.owner with
  | some k =>
    rw [how] at h
    dsimp only at h
    by_cases hk : k = i
    · rw [if_pos hk] at h
      exact absurd (congrArg Prod.fst h) (by simp)
    · rw [if_neg hk] at h
      exact absurd (congrArg Prod.fst h) (by simp)
  | none =>
    rw [how] at h
    dsimp only at h
    cases hsl : t.slots[i]? with
    | none =>
      rw [hsl] at h
      exact absurd (congrArg Prod.fst h) (by simp)
    | some sl =>
      rw [hsl] at h
      dsimp only at h
      by_cases hop : sl.st = .OPEN
      · rw [if_pos hop] at h
        have h2 := congrArg Prod.snd h
        dsimp only at h2
        rw [← h2]
      · rw [if_neg hop] at h
        exact absurd (congrArg Prod.fst h) (by simp)

/-- A successful restore-by-user_id enables the provisioner flag. -/
theorem prov_true_restoreUid (uid : String) (t t' : SMgr)
    (h : restoreUid uid t = (.ok (), t')) : t'.provEnabled = true := by
  unfold restoreUid at h
  cases hf : findUidIdx t uid with
  | some i =>
    rw [hf] at h
    exact prov_true_restoreIdx i t t' h
  | none =>
    rw [hf] at h
    dsimp only at h
    cases how : t.owner with
    | some k =>
      rw [how] at h
      exact absurd (congrArg Prod.fst h) (by simp)
    | none =>
      rw [how] at h
      exact absurd (congrArg Prod.fst h) (by simp)

/-- C2: release on a RESTORED session succeeds, clears the live in-memory
state (key store, node table, filter entries all empty) and the owner
marker; with erase it additionally wipes the backing region and the
user_id mapping of that slot and disables the provisioner-enabled flag,
while without erase the region, mapping and flag are left intact; the
flag then stays disabled under every non-restore operation and is set
again by any successful restore. -/
theorem release_clears_and_erases :
    (∀ (s : SMgr) (i : Nat) (sl : Slot) (erase : Bool),
      s.slots[i]? = some sl → sl.st = .RESTORED →
      (releaseIdx i erase s).1 = .ok () ∧
      (releaseIdx i erase s).2.live = emptySnapshot ∧
      (releaseIdx i erase s).2.live.keys.netKeys = [] ∧
      (releaseIdx i erase s).2.live.keys.appKeys = [] ∧
      (releaseIdx i erase s).2.live.filter.entries = [] ∧
      (∀ nd ∈ (releaseIdx i erase s).2.live.nodes, nd = none) ∧
      (releaseIdx i erase s).2.owner = none ∧
      (erase = true → (releaseIdx i erase s).2.slots[i]? = some ⟨.OPEN, none, emptySnapshot⟩ ∧
        (releaseIdx i erase s).2.provEnabled = false) ∧
      (erase = false → (releaseIdx i erase s).2.slots[i]? = some ⟨.OPEN, sl.uid, sl.store⟩ ∧
        (releaseIdx i erase s).2.provEnabled = s.provEnabled)) ∧
    (∀ (t : SMgr) (op : MOp), isRestoreOp op = false → t.provEnabled = false →
      (applyM t op).provEnabled = false) ∧
    (∀ (i : Nat) (t t' : SMgr), restoreIdx i t = (.ok (), t') → t'.provEnabled = true) ∧
    (∀ (uid : String) (t t' : SMgr), restoreUid uid t = (.ok (), t') →
      t'.provEnabled = true) := by
  refine ⟨?_, ?_, ?_, ?_⟩
  · intro s i sl erase hsl hr
    have hred : releaseIdx i erase s =
        (.ok (), ⟨s.slots.set i (if erase then ⟨.OPEN, none, emptySnapshot⟩
            else ⟨.OPEN, sl.uid, sl.store⟩), none,
          (if erase then false else s.provEnabled), emptySnapshot⟩) := by
      unfold releaseIdx
      rw [hsl]
      dsimp only
      rw [if_pos hr]
    rcases List.getElem?_eq_some.mp hsl with ⟨hlen, _⟩
    rw [hred]
    refine ⟨rfl, rfl, rfl, rfl, rfl, ?_, rfl, ?_, ?_⟩
    · intro nd hnd
      exact List.eq_of_mem_replicate hnd
    · intro he
      subst he
      constructor
      · dsimp only
        rw [List.getElem?_set, if_pos rfl, if_pos hlen]
        rfl
      · rfl
    · intro he
      subst he
      constructor
      · dsimp only
        rw [List.getElem?_set, if_pos rfl, if_pos hlen]
        rfl
      · rfl
  · intro t op hnr hfalse
    cases op with
    | openI i => exact prov_false_openIdx i t hfalse
    | openU uid => exact prov_false_openUid uid t hfalse
    | restoreI i => cases hnr
    | restoreU uid => cases hnr
    | releaseI i e => exact prov_false_releaseIdx i e t hfalse
    | releaseU uid e => exact prov_false_releaseUid uid e t hfalse
    | closeI i => exact prov_false_closeIdx i t hfalse
    | closeU uid => exact prov_false_closeUid uid t hfalse
    | deleteI i => exact prov_false_deleteIdx i t hfalse
    | deleteU uid => exact prov_false_deleteUid uid t hfalse
    | eraseAll => exact prov_false_directErase t hfalse
  · intro i t t' h
    exact prov_true_restoreIdx i t t' h
  · intro uid t t' h
    exact prov_true_restoreUid uid t t' h

/-- Witness for C2 on a one-slot manager whose slot 0 is RESTORED under
user_id "a" with a non-empty live key store: release clears the live
state; with erase it wipes the slot and disables the flag, without erase
the user_id mapping and flag survive; a non-restore op keeps the flag
down and a successful restore raises it. -/
theorem release_clears_and_erases_witness :
    (releaseIdx 0 true
      ⟨[⟨.RESTORED, some "a", emptySnapshot⟩], some 0, true,
        ⟨⟨[⟨1, [2]⟩], [], []⟩, List.replicate MAX_PROV_NODES none, ⟨.blacklist, []⟩⟩⟩).1 =
      .ok () ∧
    (releaseIdx 0 true
      ⟨[⟨.RESTORED, some "a", emptySnapshot⟩], some 0, true,
        ⟨⟨[⟨1, [2]⟩], [], []⟩, List.replicate MAX_PROV_NODES none, ⟨.blacklist, []⟩⟩⟩).2.live =
      emptySnapshot ∧
    (releaseIdx 0 true
      ⟨[⟨.RESTORED, some "a", emptySnapshot⟩], some 0, true,
        ⟨⟨[⟨1, [2]⟩], [], []⟩, List.replicate MAX_PROV_NODES none, ⟨.blacklist, []⟩⟩⟩).2.slots[0]? =
      some ⟨.OPEN, none, emptySnapshot⟩ ∧
    (releaseIdx 0 true
      ⟨[⟨.RESTORED, some "a", emptySnapshot⟩], some 0, true,
        ⟨⟨[⟨1, [2]⟩], [], []⟩, List.replicate MAX_PROV_NODES none, ⟨.blacklist, []⟩⟩⟩).2.provEnabled =
      false ∧
    (releaseIdx 0 false
      ⟨[⟨.RESTORED, some "a", emptySnapshot⟩], some 0, true,
        ⟨⟨[⟨1, [2]⟩], [], []⟩, List.replicate MAX_PROV_NODES none, ⟨.blacklist, []⟩⟩⟩).2.slots[0]? =
      some ⟨.OPEN, some "a", emptySnapshot⟩ ∧
    (releaseIdx 0 false
      ⟨[⟨.RESTORED, some "a", emptySnapshot⟩], some 0, true,
        ⟨⟨[⟨1, [2]⟩], [], []⟩, List.replicate MAX_PROV_NODES none, ⟨.blacklist, []⟩⟩⟩).2.provEnabled =
      true ∧
    (applyM ⟨[⟨.CLOSED, none, emptySnapshot⟩], none, false, emptySnapshot⟩
      (.openI 0)).provEnabled = false ∧
    (runM 2 [.openI 0, .restoreI 0]).provEnabled = true := by
  have ht := release_clears_and_erases.1
    ⟨[⟨.RESTORED, some "a", emptySnapshot⟩], some 0, true,
      ⟨⟨[⟨1, [2]⟩], [], []⟩, List.replicate MAX_PROV_NODES none, ⟨.blacklist, []⟩⟩⟩
    0 ⟨.RESTORED, some "a", emptySnapshot⟩ true rfl rfl
  have hf := release_clears_and_erases.1
    ⟨[⟨.RESTORED, some "a", emptySnapshot⟩], some 0, true,
      ⟨⟨[⟨1, [2]⟩], [], []⟩, List.replicate MAX_PROV_NODES none, ⟨.blacklist, []⟩⟩⟩
    0 ⟨.RESTORED, some "a", emptySnapshot⟩ false rfl rfl
  refine ⟨ht.1, ht.2.1, (ht.2.2.2.2.2.2.2.1 rfl).1, (ht.2.2.2.2.2.2.2.1 rfl).2,
    (hf.2.2.2.2.2.2.2.2 rfl).1, (hf.2.2.2.2.2.2.2.2 rfl).2, ?_, ?_⟩
  · exact release_clears_and_erases.2.1
      ⟨[⟨.CLOSED, none, emptySnapshot⟩], none, false, emptySnapshot⟩ (.openI 0) rfl rfl
  · exact release_clears_and_erases.2.2.1 0 (runM 2 [.openI 0])
      (runM 2 [.openI 0, .restoreI 0]) rfl
